import Mathlib

/-!
Verification development for the composlang corpus-statistics system.

Shallow embedding of:
  * `src/src/corpus.py`  — the checkpointed corpus reader (`Corpus.__init__`,
    `Corpus.read`, `Corpus.to_cache`/`load_cache`, `Corpus.digest_sentencebatch`,
    `Corpus._digest_sentence`, `Corpus.segment_line`,
    `Corpus._extract_edges_from_sentence`);
  * `src/corpus.py`      — the legacy reader's schema validation in
    `Corpus.__init__` and its blank-line guard in `Corpus.read`;
  * `src/composlang/composition.py` — `CompositionAnalysis._crunch_corpus_stats`,
    `generate_adjacency_matrix`, `compute_combinations`, `compute_entropy`,
    `compute_pmi`.

Python `collections.Counter` objects are embedded as insertion-ordered
association lists (`Cnt`); `Counter.update` adds counts in place for existing
keys and appends new keys in the iteration order of the argument, which is
exactly what `cntUpdate` does.  Equality of Python counters/dicts is
content equality, i.e. equality of the induced lookup functions (`cntGet`).
-/

/-! ## Python string primitives

`str.strip`, `str.split(sep)` and `int(...)` are modelled on `List Char`
(Lean 4.14's `String` is a wrapper around `List Char`, so these transfer to
`String` via `toList`).  `int` parsing covers the forms appearing in corpora:
optional surrounding whitespace, an optional sign, then decimal digits
(Python's underscore separators and non-ASCII digits are not modelled). -/

def isPyWs (c : Char) : Bool :=
  c = ' ' || c = '\t' || c = '\n' || c = '\r' || c = '\x0b' || c = '\x0c'

/-- Python `str.strip()`: drop leading and trailing whitespace. -/
def chTrim (cs : List Char) : List Char :=
  ((cs.dropWhile isPyWs).reverse.dropWhile isPyWs).reverse

/-- Python `str.split(sep)` for a one-character separator: keeps empty pieces,
and `''.split(sep) == ['']`. -/
def chSplit (sep : Char) : List Char → List (List Char)
  | [] => [[]]
  | c :: t =>
    if c = sep then [] :: chSplit sep t
    else
      match chSplit sep t with
      | [] => [[c]]
      | h :: r => (c :: h) :: r

/-- Decimal digit run: `some value` iff the list is nonempty and all digits. -/
def digitsVal : List Char → Option Nat
  | [] => none
  | cs =>
    cs.foldl
      (fun acc c =>
        acc.bind fun n => if c.isDigit then some (n * 10 + (c.toNat - '0'.toNat)) else none)
      (some 0)

/-- Python `int(s)`: strip whitespace, optional sign, decimal digits;
`none` models the `ValueError` raised on anything else (e.g. `int('')`,
`int('__EOF__')`). -/
def pyInt (cs : List Char) : Option Int :=
  match chTrim cs with
  | '+' :: r => (digitsVal r).map Int.ofNat
  | '-' :: r => (digitsVal r).map fun n => -(n : Int)
  | r => (digitsVal r).map Int.ofNat

/-! ## `Corpus.segment_line` (src/src/corpus.py:268-290, identical in
src/corpus.py:219-242)

A line is stripped and split on the separator; each schema item
`label:typ` is split on `:`, the positional field is cast to the declared
type.  A missing positional field raises `IndexError`; a failed `int` cast
raises `ValueError`; both abort the read (only `IndexError` is logged before
re-raising).  `pydoc.locate` is modelled for the two type names the schemas
use (`int`, `str`, with `''` defaulting to `str`); any other type name, or a
schema item that does not split into exactly `label:typ`, is mapped to
`fmtErr` (in Python: a `TypeError`/`ValueError` at the same program point). -/

inductive Val where
  | vint (n : Int)
  | vstr (s : String)
deriving DecidableEq, Repr

inductive PErr where
  | castErr (field : String)
  | idxErr (line : String)
  | fmtErr (item : String)
deriving DecidableEq, Repr

def segFields (row : List (List Char)) (line : String) :
    List String → Nat → Except PErr (List (String × Val))
  | [], _ => .ok []
  | item :: fs, i =>
    match chSplit ':' item.toList with
    | [labelC, typC0] =>
      let typC := if typC0.isEmpty then "str".toList else typC0
      match row[i]? with
      | none => .error (.idxErr line)
      | some cell =>
        let val? : Except PErr Val :=
          if typC = "int".toList then
            match pyInt cell with
            | some n => .ok (.vint n)
            | none => .error (.castErr (String.mk cell))
          else if typC = "str".toList then .ok (.vstr (String.mk cell))
          else .error (.fmtErr item)
        match val? with
        | .error e => .error e
        | .ok v => (segFields row line fs (i + 1)).map fun r => (String.mk labelC, v) :: r
    | _ => .error (.fmtErr item)

def segmentLine (line : String) (sep : Char) (fmt : List String) :
    Except PErr (List (String × Val)) :=
  segFields (chSplit sep (chTrim line.toList)) line fmt 0

/-- The default schema of both `Corpus.__init__` implementations. -/
def fmtDefault : List String :=
  ["sentence_id:int", "text:str", "lemma:str", "id:int", "head:int", "upos:str", "deprel:str"]

/-- The fields of one parsed token line that the reader actually consumes:
`sentence_id` for boundary detection, and `text`/`upos`/`head` through
`stanza.Document` materialization (`w.text`, `w.upos`, `w.head`). -/
structure Parse where
  sid : Int
  text : String
  upos : String
  head : Int
deriving DecidableEq, Repr, Inhabited

/-- `Corpus.segment_line` at the default schema and tab separator, projected
onto the consumed fields.  With `fmtDefault` the four lookups always succeed
with the right constructor, so the fallback values are unreachable. -/
def parseLine (line : String) : Except PErr Parse :=
  (segmentLine line '\t' fmtDefault).map fun fs =>
    { sid := match fs.lookup "sentence_id" with | some (.vint n) => n | _ => 0
      text := match fs.lookup "text" with | some (.vstr s) => s | _ => ""
      upos := match fs.lookup "upos" with | some (.vstr s) => s | _ => ""
      head := match fs.lookup "head" with | some (.vint n) => n | _ => 0 }

/-- The synthetic end-of-input line of `Corpus.read` (src/src/corpus.py:161):
`f'{"__EOF__"}{sep}' + sep.join(map(str, range(6 + 10)))`. -/
def dummyLine : String :=
  "__EOF__\t0\t1\t2\t3\t4\t5\t6\t7\t8\t9\t10\t11\t12\t13\t14\t15"

/-! ## Counters -/

/-- A `collections.Counter` as an insertion-ordered association list. -/
abbrev Cnt (α : Type) : Type := List (α × Nat)

def cntAdd {α : Type} [DecidableEq α] : Cnt α → α → Nat → Cnt α
  | [], k, n => [(k, n)]
  | (k1, v) :: t, k, n => if k1 = k then (k1, v + n) :: t else (k1, v) :: cntAdd t k n

/-- `Counter.__getitem__`: missing keys count 0. -/
def cntGet {α : Type} [DecidableEq α] : Cnt α → α → Nat
  | [], _ => 0
  | (k1, v) :: t, k => if k1 = k then v else cntGet t k

/-- `Counter(iterable)`. -/
def mkCnt {α : Type} [DecidableEq α] (ks : List α) : Cnt α :=
  ks.foldl (fun c k => cntAdd c k 1) []

/-- `Counter.update(other)`: add `other`'s counts in `other`'s key order. -/
def cntUpdate {α : Type} [DecidableEq α] (c other : Cnt α) : Cnt α :=
  other.foldl (fun c kv => cntAdd c kv.1 kv.2) c

/-! ## Sentence digestion (src/src/corpus.py:249-305)

`Word` (src/word.py) is a plain `(text, upos)` pair. -/

structure Tok where
  text : String
  upos : String
deriving DecidableEq, Repr, Inhabited

def sentToks (s : List Parse) : List Tok :=
  s.map fun p => ⟨p.text, p.upos⟩

/-- Python list indexing `s[i]` (negative indices wrap; out of range is
`none`, where the source raises `IndexError` inside the digest worker —
no claim exercises that path). -/
def pyIdx {α : Type} (s : List α) (i : Int) : Option α :=
  if 0 ≤ i then s[i.toNat]?
  else if (-i).toNat ≤ s.length then s[s.length - (-i).toNat]? else none

/-- `Corpus._extract_edges_from_sentence`: for each word with head `h`,
skip if `h == 0` (root), else pair it with `words[h-1]`. -/
def extractEdges (s : List Parse) : List (Tok × Tok) :=
  s.filterMap fun p =>
    if p.head = (0 : Int) then none
    else
      match pyIdx s (p.head - 1) with
      | some q => some (⟨p.text, p.upos⟩, ⟨q.text, q.upos⟩)
      | none => none

/-- `Corpus._digest_sentence`: a sentence becomes a token counter and an
edge counter. -/
def digestSentence (s : List Parse) : Cnt Tok × Cnt (Tok × Tok) :=
  (mkCnt (sentToks s), mkCnt (extractEdges s))

/-- The mutable reader state that `Corpus.to_cache` persists and
`Corpus.load_cache` restores: position counters plus both frequency tables. -/
structure RState where
  linesRead : Nat
  sentencesSeen : Nat
  tokenStats : Cnt Tok
  pairStats : Cnt (Tok × Tok)
deriving DecidableEq, Repr, Inhabited

/-- `Corpus.digest_sentencebatch`: digest each sentence (in the source via a
joblib worker pool), then merge the per-sentence counters into the aggregate
tables in batch order with `Counter.update`. -/
def digestBatch (st : RState) (sb : List (List Parse)) : RState :=
  sb.foldl
    (fun st s =>
      let d := digestSentence s
      { st with
        tokenStats := cntUpdate st.tokenStats d.1
        pairStats := cntUpdate st.pairStats d.2 })
    st

def freshRState : RState := ⟨0, 0, [], []⟩

/-! ## The read loop (src/src/corpus.py:154-246)

Input is the `fileinput` stream over the sorted file list: a list of
`(filename, raw line)` pairs.  The loop state is the pending skip count
(`lines_to_skip = self._lines_read` at entry), the current sentence buffer
(`this_sentence`), the pending batch (`sentence_batch`) and the persistent
state.  `trace` records every `to_cache` snapshot in order; `assembled`
records every sentence materialized into a batch, in order; `err` is the
exception that aborted the loop, if any (the one-record lookahead parses the
next raw line — or the `__EOF__` dummy — *with the current filename*, exactly
as `self.segment_line(f.peek(dummy_line()))` does). -/

structure ReadOut where
  st : RState
  err : Option PErr
  trace : List RState
  assembled : List (List Parse)
deriving DecidableEq, Repr, Inhabited

def wordsIn (sb : List (List Parse)) : Nat :=
  (sb.map List.length).sum

/-- `sentences_seen + sents_read >= n_sentences` (`False` at the default
`n_sentences = inf`). -/
def limitTrigger : Option Nat → Nat → Nat → Bool
  | none, _, _ => false
  | some n, seen, add => n ≤ seen + add

/-- `self._sentences_seen >= n_sentences`. -/
def limitBreak : Option Nat → Nat → Bool
  | none, _ => false
  | some n, seen => n ≤ seen

def readLoop (bs : Nat) (limit : Option Nat) :
    List (String × String) → Nat → List Parse → List (List Parse) → RState → ReadOut
  | [], _, _, _, st => ⟨st, none, [], []⟩
  | (_, _) :: rest, skip + 1, cur, batch, st => readLoop bs limit rest skip cur batch st
  | (file, line) :: rest, 0, cur, batch, st =>
    match parseLine line with
    | .error e => ⟨st, some e, [], []⟩
    | .ok p =>
      let sid := file ++ "_" ++ toString p.sid
      let cur1 := cur ++ [p]
      let nextSid? : Except PErr String :=
        match rest with
        | (_, l2) :: _ => (parseLine l2).map fun q => file ++ "_" ++ toString q.sid
        | [] => (parseLine dummyLine).map fun q => file ++ "_" ++ toString q.sid
      match nextSid? with
      | .error e => ⟨st, some e, [], []⟩
      | .ok nsid =>
        if nsid ≠ sid then
          let batch1 := batch ++ [cur1]
          if bs ≤ batch1.length || limitTrigger limit st.sentencesSeen batch1.length then
            let st1 := digestBatch st batch1
            let st2 := { st1 with
              linesRead := st1.linesRead + wordsIn batch1
              sentencesSeen := st1.sentencesSeen + batch1.length }
            if limitBreak limit st2.sentencesSeen then ⟨st2, none, [st2, st2], [cur1]⟩
            else
              let out := readLoop bs limit rest 0 [] [] st2
              ⟨out.st, out.err, st2 :: out.trace, cur1 :: out.assembled⟩
          else
            if limitBreak limit st.sentencesSeen then ⟨st, none, [st], [cur1]⟩
            else
              let out := readLoop bs limit rest 0 [] batch1 st
              ⟨out.st, out.err, out.trace, cur1 :: out.assembled⟩
        else
          if limitBreak limit st.sentencesSeen then ⟨st, none, [st], []⟩
          else readLoop bs limit rest 0 cur1 batch st

/-- `Corpus.read(batch_size)` from a given persistent state: the loop skips
the first `_lines_read` data lines (resume), then streams the rest. -/
def corpusRead (bs : Nat) (limit : Option Nat) (lines : List (String × String))
    (st : RState) : ReadOut :=
  readLoop bs limit lines st.linesRead [] [] st

deriving instance DecidableEq for Except

/-! ## The legacy reader (src/corpus.py): schema validation and blank-line
guard -/

/-- Does `needle` start `hay`? -/
def startsWith : List Char → List Char → Bool
  | [], _ => true
  | _ :: _, [] => false
  | a :: t, b :: u => a = b && startsWith t u

/-- Python's substring test `needle in hay`. -/
def containsSub (needle : List Char) : List Char → Bool
  | [] => needle.isEmpty
  | c :: t => startsWith needle (c :: t) || containsSub needle t

/-- The field name declared by a schema item `label:typ`
(`item.split(':')[0]`). -/
def fieldName (item : String) : String :=
  match chSplit ':' item.toList with
  | l :: _ => String.mk l
  | [] => ""

/-- The legacy `Corpus.__init__` schema check (src/corpus.py:81-85):
a `for`/`else` loop that accepts the schema as soon as some item *contains
the substring* `'sentence_id:'`, and otherwise raises `ValueError` at
construction. -/
def legacyInit (fmt : List String) : Except String Unit :=
  if fmt.any fun item => containsSub "sentence_id:".toList item.toList then .ok ()
  else .error "format must include a column similar to sentence_id:int"

/-- The checkpointed `Corpus.__init__` (src/src/corpus.py:54-83) performs no
schema validation at all: any `fmt` is accepted at construction (a missing
`sentence_id` field only surfaces later, as a `KeyError` inside `read`). -/
def ckptInit (_fmt : List String) : Except String Unit := .ok ()

/-- Python `line.strip() == ''`: the line is blank. -/
def isBlank (line : String) : Bool :=
  (chTrim line.toList).isEmpty

/-- The legacy reader's per-line guard `if line.strip() == '': continue`
(src/corpus.py:176): a consumed line is forwarded to `segment_line` only when
it is not blank.  In the checkpointed reader (src/src/corpus.py:196) the same
guard is commented out, so `readLoop` above passes every consumed line to the
segmenter. -/
def legacyKeepsLine (line : String) : Bool :=
  !isBlank line

/-! ## `CompositionAnalysis` (src/composlang/composition.py)

The constructor consumes a finished corpus through `corpus.token_stats`,
`corpus.pair_stats` and `corpus.skip_pair_stats`.  The `Corpus` variant
providing the public `skip_pair_stats` accessor is not part of the sources
under `src/`; per the spec (§3, *SkipPairStats*: "a second, independently
tracked pair table ... parallel structure to PairStats, never merged with
it") it is an independent counter with the same shape as `pair_stats`, so the
engine's input is embedded as the three `.items()` sequences of those
counters. -/

structure CorpusData where
  tokenItems : List ((String × String) × Nat)
  pairItems : List (((String × String) × (String × String)) × Nat)
  skipPairItems : List (((String × String) × (String × String)) × Nat)
deriving DecidableEq, Repr, Inhabited

/-- One row of `pair_df`/`skip_pair_df`: columns `child`, `parent`,
`pair` (redundant: the `(child, parent)` tuple) and `freq` — four columns,
which is exactly what `compute_pmi`'s row unpacking
`(w, p, (w, p), ct)` expects. -/
structure PairRow where
  child : String
  parent : String
  freq : Nat
deriving DecidableEq, Repr, Inhabited

/-- `pair_df` (resp. `skip_pair_df`): base rows plus the optional derived
column `pmi` (resp. `skip_pmi`) added by `compute_pmi`. -/
structure PairDf where
  rows : List PairRow
  pmiCol : Option (List ℝ)

/-- `child_df`/`parent_df`: one row per distinct token of the selected
category — columns `token` and `freq` (the constant `upos` column carries no
information and is kept only in the column list) — plus the derived columns
added by `compute_combinations` and `compute_entropy`. -/
structure TokenDf where
  rows : List (String × Nat)
  combinations : Option (List Nat)
  combinationsCollapsed : Option (List Nat)
  skipCombinations : Option (List Nat)
  skipCombinationsCollapsed : Option (List Nat)
  entropy : Option (List ℝ)
  entropyCeilinged : Option (List ℝ)
  entropySkip : Option (List ℝ)
  entropySkipCeilinged : Option (List ℝ)

def emptyTokenDf (rows : List (String × Nat)) : TokenDf :=
  ⟨rows, none, none, none, none, none, none, none, none⟩

/-- The column names of a `child_df`/`parent_df`, in construction order. -/
def TokenDf.cols (df : TokenDf) : List String :=
  ["token", "upos", "freq"]
    ++ (if df.combinations.isSome then ["combinations"] else [])
    ++ (if df.combinationsCollapsed.isSome then ["combinations_collapsed"] else [])
    ++ (if df.skipCombinations.isSome then ["skip_combinations"] else [])
    ++ (if df.skipCombinationsCollapsed.isSome then ["skip_combinations_collapsed"] else [])
    ++ (if df.entropy.isSome then ["entropy"] else [])
    ++ (if df.entropyCeilinged.isSome then ["entropy_ceilinged"] else [])
    ++ (if df.entropySkip.isSome then ["entropy_skip"] else [])
    ++ (if df.entropySkipCeilinged.isSome then ["entropy_skip_ceilinged"] else [])

/-- pandas `key in df`: membership in the column index. -/
def TokenDf.hasCol (df : TokenDf) (k : String) : Bool :=
  df.cols.contains k

/-- The dense adjacency matrix `np.zeros((n_child, n_parent))` with its
shape. -/
structure Mat where
  nr : Nat
  nc : Nat
  entry : Nat → Nat → Nat

/-- The state of a `CompositionAnalysis` instance after
`_crunch_corpus_stats`. -/
structure CAState where
  childUpos : String
  parentUpos : String
  nTokens : Nat
  tokenStats : List (String × Nat)
  childDf : TokenDf
  parentDf : TokenDf
  pairStats : List ((String × String) × Nat)
  pairDf : PairDf
  skipPairStats : List ((String × String) × Nat)
  skipPairDf : PairDf
  matrix : Option Mat

/-- Python dict lookup on an insertion-ordered binding list: a later binding
for the same key overwrites an earlier one, so lookup returns the *last*
binding. -/
def dictGet (l : List (String × Nat)) (k : String) : Option Nat :=
  l.foldl (fun acc kv => if kv.1 = k then some kv.2 else acc) none

/-- `{token: ix for ix, token in enumerate(tokens)}` built from position
`b` on: dict semantics bind a key to the position of its *last* occurrence
(on the vocabulary lists the tokens are distinct, so first and last agree). -/
def dictIdxGo (t : String) : List String → Nat → Option Nat
  | [], _ => none
  | x :: r, b =>
    match dictIdxGo t r (b + 1) with
    | some j => some j
    | none => if x = t then some b else none

/-- `{token: ix for ix, token in enumerate(tokens)}`. -/
def dictIdx (ts : List String) (t : String) : Option Nat :=
  dictIdxGo t ts 0

/-- `df.sort_values('freq', ascending=False, ignore_index=True)`: descending
stable insertion sort by the key.  (pandas' default quicksort leaves the
relative order of equal keys unspecified; the embedding fixes the stable
order.) -/
def insertDesc {α : Type} (key : α → Nat) (x : α) : List α → List α
  | [] => [x]
  | y :: t => if key y ≤ key x then x :: y :: t else y :: insertDesc key x t

def sortDesc {α : Type} (key : α → Nat) (l : List α) : List α :=
  l.foldr (insertDesc key) []

/-- `CompositionAnalysis._crunch_corpus_stats` (composition.py:35-65):
`n_tokens` sums *every* corpus token count (all categories);
`token_stats` keeps the bare text of tokens of either selected category
(a dict comprehension, so a text occurring under both categories is bound to
the count encountered last); the child/parent tables keep tokens of the
respective category sorted by descending frequency; the pair tables filter
`(child_upos, parent_upos)` pairs and drop the categories from the keys.
(`Counter({...})` would collapse duplicate `(child, parent)` keys; keys of a
corpus counter are unique, and the embedding keeps the filtered sequence.) -/
def crunch (cd : CorpusData) (cu pu : String) : CAState :=
  let childRows := (cd.tokenItems.filter fun x => x.1.2 == cu).map fun x => (x.1.1, x.2)
  let parentRows := (cd.tokenItems.filter fun x => x.1.2 == pu).map fun x => (x.1.1, x.2)
  let pairs := (cd.pairItems.filter fun x => x.1.1.2 == cu && x.1.2.2 == pu).map
    fun x => ((x.1.1.1, x.1.2.1), x.2)
  let skipPairs := (cd.skipPairItems.filter fun x => x.1.1.2 == cu && x.1.2.2 == pu).map
    fun x => ((x.1.1.1, x.1.2.1), x.2)
  { childUpos := cu
    parentUpos := pu
    nTokens := (cd.tokenItems.map (·.2)).sum
    tokenStats := (cd.tokenItems.filter fun x => x.1.2 == cu || x.1.2 == pu).map
      fun x => (x.1.1, x.2)
    childDf := emptyTokenDf (sortDesc Prod.snd childRows)
    parentDf := emptyTokenDf (sortDesc Prod.snd parentRows)
    pairStats := pairs
    pairDf := ⟨sortDesc PairRow.freq (pairs.map fun x => ⟨x.1.1, x.1.2, x.2⟩), none⟩
    skipPairStats := skipPairs
    skipPairDf := ⟨sortDesc PairRow.freq (skipPairs.map fun x => ⟨x.1.1, x.1.2, x.2⟩), none⟩
    matrix := none }

/-- The zero matrix written cell by cell from the pair rows
(`matrix[cix, pix] = value`; a row whose token is missing from a vocabulary
index would enter the source's `except KeyError: print(...)` branch — the
ConsistencyError path, unreachable for `crunch` states — and is skipped
here). -/
def buildMat (rows : List PairRow) (cix pix : String → Option Nat) (nr nc : Nat) : Mat :=
  { nr := nr
    nc := nc
    entry :=
      rows.foldl
        (fun f r =>
          match cix r.child, pix r.parent with
          | some i, some j => fun a b => if a = i && b = j then r.freq else f a b
          | _, _ => f)
        fun _ _ => 0 }

/-- `CompositionAnalysis.generate_adjacency_matrix` (composition.py:89-124)
at the default statistic `stat='freq'`: if `self.matrix` is already set it is
returned unchanged — *whatever the arguments* — otherwise the matrix is
built from the pair table selected by `skip` and cached in `self.matrix`. -/
def generateAdjacencyMatrix (st : CAState) (skip : Bool) : CAState × Mat :=
  match st.matrix with
  | some m => (st, m)
  | none =>
    let childTokens := st.childDf.rows.map Prod.fst
    let parentTokens := st.parentDf.rows.map Prod.fst
    let rows := if skip then st.skipPairDf.rows else st.pairDf.rows
    let m := buildMat rows (dictIdx childTokens) (dictIdx parentTokens)
      childTokens.length parentTokens.length
    ({ st with matrix := some m }, m)

/-- One iteration of the `compute_combinations` loop (composition.py:135-157)
for `key = 'combinations'` (`skip = false`) or `key = 'skip_combinations'`
(`skip = true`): memoized on `key in child_df and key in parent_df`;
otherwise, for each token, `combinations` accumulates the pair counts of its
partners and `combinations_collapsed` counts its distinct partners (one per
pair-table entry). -/
def combPass (st : CAState) (skip : Bool) : CAState :=
  let key := if skip then "skip_combinations" else "combinations"
  if st.childDf.hasCol key && st.parentDf.hasCol key then st
  else
    let stats := if skip then st.skipPairStats else st.pairStats
    let c2p := fun w => (((stats.filter fun x => x.1.1 == w).map (·.2)).sum)
    let c2pColl := fun w => (stats.filter fun x => x.1.1 == w).length
    let p2c := fun w => (((stats.filter fun x => x.1.2 == w).map (·.2)).sum)
    let p2cColl := fun w => (stats.filter fun x => x.1.2 == w).length
    let cCol := st.childDf.rows.map fun r => c2p r.1
    let cColl := st.childDf.rows.map fun r => c2pColl r.1
    let pCol := st.parentDf.rows.map fun r => p2c r.1
    let pColl := st.parentDf.rows.map fun r => p2cColl r.1
    if skip then
      { st with
        childDf := { st.childDf with skipCombinations := some cCol,
                                     skipCombinationsCollapsed := some cColl }
        parentDf := { st.parentDf with skipCombinations := some pCol,
                                       skipCombinationsCollapsed := some pColl } }
    else
      { st with
        childDf := { st.childDf with combinations := some cCol,
                                     combinationsCollapsed := some cColl }
        parentDf := { st.parentDf with combinations := some pCol,
                                       combinationsCollapsed := some pColl } }

/-- `CompositionAnalysis.compute_combinations`. -/
def computeCombinations (st : CAState) : CAState :=
  combPass (combPass st false) true

/-- `scipy.stats.entropy(pk)` (composition.py:176-178) with its *default
natural base*: normalize the row to a distribution and return
`-Σ p_i ln p_i` (zero cells contribute 0).  A zero row yields `nan` in the
source, immediately replaced by `0` via `df[key].fillna(0)`
(composition.py:183-185); the zero-sum branch folds that in. -/
noncomputable def rowEntropy (row : List Nat) : ℝ :=
  if row.sum = 0 then 0
  else
    -(row.map fun r : Nat =>
        ((r : ℝ) / (row.sum : ℝ)) * Real.log ((r : ℝ) / (row.sum : ℝ))).sum

def matRow (m : Mat) (i : Nat) : List Nat :=
  (List.range m.nc).map fun j => m.entry i j

def matCol (m : Mat) (j : Nat) : List Nat :=
  (List.range m.nr).map fun i => m.entry i j

/-- One iteration of the `compute_entropy` loop (composition.py:165-194) for
`column_name = 'entropy'` (`skip = false`) or `'entropy_skip'`
(`skip = true`): the matrix comes from `generate_adjacency_matrix(skip=skip)`
— i.e. from the cache once one matrix exists; rows give the child column,
columns the parent column; the ceilinged variant divides by
`log2(freq)` when `freq < ` the other axis length and by `log2(axis length)`
otherwise. -/
noncomputable def entPass (st : CAState) (skip : Bool) : CAState :=
  let pr := generateAdjacencyMatrix st skip
  let st1 := pr.1
  let m := pr.2
  let childEnt := (List.range m.nr).map fun i => rowEntropy (matRow m i)
  let parentEnt := (List.range m.nc).map fun j => rowEntropy (matCol m j)
  let childDenom := st1.childDf.rows.map fun r => if r.2 < m.nc then r.2 else m.nc
  let parentDenom := st1.parentDf.rows.map fun r => if r.2 < m.nr then r.2 else m.nr
  let childCeil := (childEnt.zip childDenom).map fun x => x.1 / Real.logb 2 (x.2 : ℝ)
  let parentCeil := (parentEnt.zip parentDenom).map fun x => x.1 / Real.logb 2 (x.2 : ℝ)
  if skip then
    { st1 with
      childDf := { st1.childDf with entropySkip := some childEnt,
                                    entropySkipCeilinged := some childCeil }
      parentDf := { st1.parentDf with entropySkip := some parentEnt,
                                      entropySkipCeilinged := some parentCeil } }
  else
    { st1 with
      childDf := { st1.childDf with entropy := some childEnt,
                                    entropyCeilinged := some childCeil }
      parentDf := { st1.parentDf with entropy := some parentEnt,
                                      entropyCeilinged := some parentCeil } }

/-- `CompositionAnalysis.compute_entropy`: the memo guard of the first loop
iteration executes `return` (not `continue`), so when the `'entropy'` columns
exist the whole call is a no-op. -/
noncomputable def computeEntropy (st : CAState) : CAState :=
  if st.childDf.hasCol "entropy" && st.parentDf.hasCol "entropy" then st
  else
    let st1 := entPass st false
    if st1.childDf.hasCol "entropy_skip" && st1.parentDf.hasCol "entropy_skip" then st1
    else entPass st1 true

/-- The PMI of one pair row (composition.py:209-212):
`(log2 ct - log2 token_stats[w]) - (log2 token_stats[p] - log2 n_tokens)`.
`self.token_stats[w]` raises `KeyError` for a text absent from
`token_stats` — impossible for the state of a corpus in which every paired
token occurs — which the unreachable `getD 0` marks. -/
noncomputable def pmiRow (st : CAState) (r : PairRow) : ℝ :=
  (Real.logb 2 (r.freq : ℝ) - Real.logb 2 (((dictGet st.tokenStats r.child).getD 0 : Nat) : ℝ))
    - (Real.logb 2 (((dictGet st.tokenStats r.parent).getD 0 : Nat) : ℝ)
        - Real.logb 2 (st.nTokens : ℝ))

def pmiUnpackMsg : String := "ValueError: too many values to unpack (expected 4)"

/-- One iteration of the `compute_pmi` loop (composition.py:201-215) for
`key = 'pmi'` / `'skip_pmi'`.  The memo guard tests `key in self.child_df and
key in self.parent_df` — data frames that never receive a `pmi` column — so
it never fires.  The body unpacks each `stat_df` row as `(w, p, (w, p), ct)`:
if a previous call already appended the pmi column, the five-value rows make
the unpacking raise `ValueError` at the first row. -/
noncomputable def pmiPass (st : CAState) (skip : Bool) : Except String CAState :=
  let key := if skip then "skip_pmi" else "pmi"
  if st.childDf.hasCol key && st.parentDf.hasCol key then .ok st
  else
    let df := if skip then st.skipPairDf else st.pairDf
    if df.pmiCol.isSome && !df.rows.isEmpty then .error pmiUnpackMsg
    else
      let df1 : PairDf := ⟨df.rows, some (df.rows.map (pmiRow st))⟩
      .ok (if skip then { st with skipPairDf := df1 } else { st with pairDf := df1 })

/-- `CompositionAnalysis.compute_pmi`: the direct table first, then the skip
table; an exception in the first iteration aborts the call. -/
noncomputable def computePmi (st : CAState) : Except String CAState :=
  (pmiPass st false).bind fun st1 => pmiPass st1 true

/-- `CompositionAnalysis.run_analyses`. -/
noncomputable def runAnalyses (st : CAState) : Except String CAState :=
  computePmi (computeEntropy (computeCombinations st))

/-- Modelled from the spec: "`N` = total occurrences of all tokens of either
selected category" (§4.5, PMI) — the comparator for what the code's
`n_tokens` actually sums. -/
def specSelectedCategoryTotal (cd : CorpusData) (cu pu : String) : Nat :=
  ((cd.tokenItems.filter fun x => x.1.2 == cu || x.1.2 == pu).map (·.2)).sum

/-- The pair statistic recorded for `(c, p)` in a pair table: `some` of the
stored frequency for an observed pair, `none` for an unobserved one. -/
def pairFreq (rows : List PairRow) (c p : String) : Option Nat :=
  (rows.find? fun r => r.child == c && r.parent == p).map PairRow.freq

/-- The row written last into a given cell by the assignment loop of
`generate_adjacency_matrix` (later assignments overwrite earlier ones). -/
def lastWrite (p : PairRow → Bool) : List PairRow → Option PairRow
  | [] => none
  | r :: t =>
    match lastWrite p t with
    | some x => some x
    | none => if p r then some r else none

/-! ## Concrete fixtures used by witnesses and counterexamples -/

/-- Token lines (default schema) with `sentence_id` sequence
`[1, 1, 1, 2, 2, 3]` in one file. -/
def exLines9 : List (String × String) :=
  [("f", "1\tred\tred\t1\t2\tADJ\tamod"),
   ("f", "1\tapple\tapple\t2\t0\tNOUN\troot"),
   ("f", "1\tx\tx\t3\t2\tNOUN\tnmod"),
   ("f", "2\ta\ta\t1\t0\tX\tr"),
   ("f", "2\tb\tb\t2\t1\tX\tr"),
   ("f", "3\tc\tc\t1\t0\tX\tr")]

/-- Two one-line sentences (heads 0, so no edges beyond the tokens). -/
def exLines1 : List (String × String) :=
  [("f", "1\ta\ta\t1\t0\tX\tr"), ("f", "2\tb\tb\t1\t0\tX\tr")]

/-- A corpus with a third category (`VERB`), separating the two candidate
totals for `N`: all-category total `2 + 2 + 4 = 8` versus selected-category
total `2 + 2 = 4`. -/
def cdC2 : CorpusData :=
  { tokenItems := [(("a", "ADJ"), 2), (("b", "NOUN"), 2), (("c", "VERB"), 4)]
    pairItems := [((("a", "ADJ"), ("b", "NOUN")), 2)]
    skipPairItems := [] }

/-- One child (`a`) paired uniformly with two parents (`b`, `c`). -/
def cdC3 : CorpusData :=
  { tokenItems := [(("a", "ADJ"), 2), (("b", "NOUN"), 1), (("c", "NOUN"), 1)]
    pairItems := [((("a", "ADJ"), ("b", "NOUN")), 1), ((("a", "ADJ"), ("c", "NOUN")), 1)]
    skipPairItems := [] }

/-- Direct pair frequency 5 versus skip pair frequency 7 for the same
`(a, b)`. -/
def cdC4 : CorpusData :=
  { tokenItems := [(("a", "ADJ"), 1), (("b", "NOUN"), 1)]
    pairItems := [((("a", "ADJ"), ("b", "NOUN")), 5)]
    skipPairItems := [((("a", "ADJ"), ("b", "NOUN")), 7)] }

/-- A minimal corpus with one observed pair, for exercising `compute_pmi`
twice. -/
def cdC5 : CorpusData :=
  { tokenItems := [(("a", "ADJ"), 2), (("b", "NOUN"), 3)]
    pairItems := [((("a", "ADJ"), ("b", "NOUN")), 2)]
    skipPairItems := [] }

/-- The PMI example of the spec: `freq(w) = 100`, `freq(p) = 50`, joint
count 10, and an all-category corpus total of 10000 (padding category `X`). -/
def cdC2W : CorpusData :=
  { tokenItems := [(("red", "ADJ"), 100), (("apple", "NOUN"), 50), (("pad", "X"), 9850)]
    pairItems := [((("red", "ADJ"), ("apple", "NOUN")), 10)]
    skipPairItems := [] }

/-- The same token text `t` occurring under both selected categories:
count 4 as `ADJ` (earlier) and count 1 as `NOUN` (later). -/
def cdC10 : CorpusData :=
  { tokenItems := [(("t", "ADJ"), 4), (("b", "NOUN"), 2), (("t", "NOUN"), 1)]
    pairItems := [((("t", "ADJ"), ("b", "NOUN")), 3)]
    skipPairItems := [] }

/-! # Theorems -/

/-! ## Shared helper lemmas -/

theorem startsWith_iff : ∀ (n h : List Char), startsWith n h = true ↔ ∃ post, h = n ++ post := by
  intro n
  induction n with
  | nil => intro h; simp only [startsWith, List.nil_append, true_iff]; exact ⟨h, rfl⟩
  | cons a t ih =>
    intro h
    cases h with
    | nil => simp [startsWith]
    | cons b u =>
      simp only [startsWith, Bool.and_eq_true, decide_eq_true_eq, ih u, List.cons_append,
        List.cons.injEq]
      constructor
      · rintro ⟨hab, post, hpost⟩
        exact ⟨post, hab.symm, hpost⟩
      · rintro ⟨post, hb, hu⟩
        exact ⟨hb.symm, post, hu⟩

theorem containsSub_iff (n : List Char) :
    ∀ h : List Char, containsSub n h = true ↔ ∃ pre post, h = pre ++ n ++ post := by
  intro h
  induction h with
  | nil =>
    simp only [containsSub, List.isEmpty_iff]
    constructor
    · rintro rfl; exact ⟨[], [], rfl⟩
    · rintro ⟨pre, post, hp⟩
      rcases List.append_eq_nil.mp hp.symm with ⟨h1, h2⟩
      rcases List.append_eq_nil.mp h1 with ⟨-, h3⟩
      exact h3
  | cons c t ih =>
    simp only [containsSub, Bool.or_eq_true, startsWith_iff, ih]
    constructor
    · rintro (⟨post, hp⟩ | ⟨pre, post, hp⟩)
      · exact ⟨[], post, by simpa using hp⟩
      · exact ⟨c :: pre, post, by simp [hp]⟩
    · rintro ⟨pre, post, hp⟩
      cases pre with
      | nil => exact Or.inl ⟨post, by simpa using hp⟩
      | cons c2 pre2 =>
        right
        have hp2 : c :: t = c2 :: (pre2 ++ n ++ post) := by simpa using hp
        injection hp2 with h1 h2
        exact ⟨pre2, post, h2⟩

/-! ## C8 — schema validation at construction -/

/-- C8 counterexample: the schema `["my_sentence_id:int", "text:str"]` has no
field named `sentence_id`, yet both constructors succeed — the legacy check
only looks for the *substring* `'sentence_id:'` and the checkpointed
constructor does not validate at all.  The claim "construction never succeeds
with such a schema" is therefore false. -/
theorem c8_counterexample :
    ((["my_sentence_id:int", "text:str"].all fun item => !(fieldName item == "sentence_id")) = true)
    ∧ legacyInit ["my_sentence_id:int", "text:str"] = .ok ()
    ∧ ckptInit ["my_sentence_id:int", "text:str"] = .ok () := by
  decide

/-- C8 (amended): the legacy `Corpus.__init__` fails at construction exactly
when no schema item contains `'sentence_id:'` as a substring (so a field
named, e.g., `my_sentence_id` passes validation), while the checkpointed
`Corpus.__init__` accepts every schema without validation. -/
theorem c8_legacy_substring_check (fmt : List String) :
    (legacyInit fmt = .ok ()
        ↔ ∃ item ∈ fmt, ∃ pre post, item.toList = pre ++ "sentence_id:".toList ++ post)
    ∧ ckptInit fmt = .ok () := by
  refine ⟨?_, rfl⟩
  have hiff : (fmt.any fun item => containsSub "sentence_id:".toList item.toList) = true
      ↔ ∃ item ∈ fmt, ∃ pre post, item.toList = pre ++ "sentence_id:".toList ++ post := by
    rw [List.any_eq_true]
    constructor
    · rintro ⟨item, hmem, hsub⟩
      exact ⟨item, hmem, (containsSub_iff _ _).mp hsub⟩
    · rintro ⟨item, hmem, hsub⟩
      exact ⟨item, hmem, (containsSub_iff _ _).mpr hsub⟩
  unfold legacyInit
  by_cases hc : (fmt.any fun item => containsSub "sentence_id:".toList item.toList) = true
  · rw [if_pos hc]
    exact ⟨fun _ => hiff.mp hc, fun _ => rfl⟩
  · rw [if_neg hc]
    exact ⟨fun h => Except.noConfusion h, fun h => absurd (hiff.mpr h) hc⟩

/-! ## C6 — blank lines and the segmenter -/

theorem parseLine_blank (line : String) (h : isBlank line = true) :
    parseLine line = .error (.castErr "") := by
  have ht : chTrim line.toList = [] := by
    simpa [isBlank, List.isEmpty_iff] using h
  unfold parseLine segmentLine
  rw [ht]
  rfl

/-- C6 counterexample: inserting a blank line into the checkpointed reader's
input changes the outcome of `read` (here: the abort error names the blank
line's empty `sentence_id` field instead of the end-of-input sentinel), so
blank lines are *not* skipped before the segmenter. -/
theorem c6_counterexample :
    (corpusRead 1024 none [("f", "2\ta\ta\t1\t0\tX\tr"), ("f", "")] freshRState).err
      ≠ (corpusRead 1024 none [("f", "2\ta\ta\t1\t0\tX\tr")] freshRState).err := by
  decide

/-- C6 (amended): in the checkpointed reader (src/src/corpus.py, where the
blank-line guard is commented out) a blank line is not skipped: whenever the
next unskipped line is blank, it is handed to `segment_line`, whose integer
cast of the empty `sentence_id` field fails and aborts the read with the
state unchanged — blank lines reach the segmenter instead of being ignored. -/
theorem c6_blank_line_aborts_read (bs : Nat) (limit : Option Nat)
    (file line : String) (rest : List (String × String))
    (cur : List Parse) (batch : List (List Parse)) (st : RState)
    (h : isBlank line = true) :
    readLoop bs limit ((file, line) :: rest) 0 cur batch st
      = ⟨st, some (.castErr ""), [], []⟩ := by
  have hp := parseLine_blank line h
  simp [readLoop, hp]

theorem c6_blank_line_aborts_read_witness :
    readLoop 1024 none [("f", "")] 0 [] [] freshRState
      = ⟨freshRState, some (.castErr ""), [], []⟩ :=
  c6_blank_line_aborts_read 1024 none "f" "" [] [] [] freshRState (by decide)

/-! ## C9 — the `[1,1,1,2,2,3]` sentence sequence -/

/-- C9 (code bug): on the six-line input with `sentence_id` sequence
`[1,1,1,2,2,3]`, the reader assembles only the first two sentences (lengths
`[3,2]`) and then aborts: at end of input the lookahead peeks the synthetic
sentinel line, whose `sentence_id` field `'__EOF__'` fails the declared
`int` cast.  The third sentence is never emitted and no statistics are
accumulated (the batch of 1024 never fills). -/
theorem c9_sentinel_cast_fails :
    (corpusRead 1024 none exLines9 freshRState).assembled.map List.length = [3, 2]
    ∧ (corpusRead 1024 none exLines9 freshRState).err = some (.castErr "__EOF__")
    ∧ (corpusRead 1024 none exLines9 freshRState).st = freshRState := by
  decide

/-! ## C4 — the adjacency matrix and its cache -/


theorem dictIdxGo_eq_some {t : String} :
    ∀ (ts : List String) (b j : Nat), dictIdxGo t ts b = some j →
      ∃ k, ∃ hk : k < ts.length, j = b + k ∧ ts.get ⟨k, hk⟩ = t := by
  intro ts
  induction ts with
  | nil => intro b j h; exact absurd h (by simp [dictIdxGo])
  | cons x r ih =>
    intro b j h
    unfold dictIdxGo at h
    rcases hr : dictIdxGo t r (b + 1) with - | j2
    · rw [hr] at h
      by_cases hx : x = t
      · rw [if_pos hx] at h
        exact ⟨0, by simp, by simpa using h.symm, by simpa using hx⟩
      · rw [if_neg hx] at h; exact absurd h (by simp)
    · rw [hr] at h
      obtain ⟨k2, hk2, hj2, hget⟩ := ih (b + 1) j2 hr
      refine ⟨k2 + 1, by simpa using Nat.succ_lt_succ hk2, ?_, by simpa using hget⟩
      simp only [Option.some.injEq] at h
      omega

theorem dictIdxGo_of_get {t : String} :
    ∀ (ts : List String) (b k : Nat) (hk : k < ts.length),
      ts.Nodup → ts.get ⟨k, hk⟩ = t → dictIdxGo t ts b = some (b + k) := by
  intro ts
  induction ts with
  | nil => intro b k hk; simp at hk
  | cons x r ih =>
    intro b k hk hnd hget
    obtain ⟨hx, hndr⟩ := List.nodup_cons.mp hnd
    unfold dictIdxGo
    cases k with
    | zero =>
      have hxt : x = t := by simpa using hget
      rcases hr : dictIdxGo t r (b + 1) with - | j2
      · simp [hxt]
      · obtain ⟨k2, hk2, -, hget2⟩ := dictIdxGo_eq_some r (b + 1) j2 hr
        have hmem : t ∈ r := hget2 ▸ List.get_mem r k2 hk2
        exact absurd (by rw [hxt]; exact hmem) hx
    | succ k2 =>
      have hk2 : k2 < r.length := by simpa using hk
      rw [ih (b + 1) k2 hk2 hndr (by simpa using hget)]
      simp only [Option.some.injEq]
      omega

theorem lastWrite_congr {p q : PairRow → Bool} :
    ∀ l : List PairRow, (∀ r ∈ l, p r = q r) → lastWrite p l = lastWrite q l := by
  intro l
  induction l with
  | nil => intro _; rfl
  | cons r t ih =>
    intro h
    unfold lastWrite
    rw [ih fun x hx => h x (List.mem_cons_of_mem r hx), h r (List.mem_cons_self r t)]

theorem lastWrite_eq_none {p : PairRow → Bool} :
    ∀ l : List PairRow, (∀ r ∈ l, ¬p r = true) → lastWrite p l = none := by
  intro l
  induction l with
  | nil => intro _; rfl
  | cons r t ih =>
    intro h
    unfold lastWrite
    rw [ih fun x hx => h x (List.mem_cons_of_mem r hx)]
    simp [h r (List.mem_cons_self r t)]

theorem lastWrite_eq_findq {p : PairRow → Bool} :
    ∀ l : List PairRow, l.countP p ≤ 1 → lastWrite p l = l.find? p := by
  intro l
  induction l with
  | nil => intro _; rfl
  | cons r t ih =>
    intro h
    rw [List.countP_cons] at h
    unfold lastWrite
    by_cases hp : p r = true
    · have ht : t.countP p = 0 := by
        simp only [hp, if_true] at h
        omega
      rw [lastWrite_eq_none t fun x hx hpx =>
        (by simp [List.countP_eq_zero.mp ht x hx] at hpx : False)]
      simp [List.find?, hp]
    · have hpf : p r = false := by simpa using hp
      have ht : t.countP p ≤ 1 := by
        simp only [hpf, if_false] at h
        omega
      rw [ih ht, List.find?, hpf]
      cases t.find? p <;> simp

theorem countP_pair_le_one (c p0 : String) :
    ∀ l : List PairRow, (l.map fun r => (r.child, r.parent)).Nodup →
      l.countP (fun r => r.child == c && r.parent == p0) ≤ 1 := by
  intro l
  induction l with
  | nil => intro _; simp
  | cons r t ih =>
    intro hnd
    rw [List.map_cons, List.nodup_cons] at hnd
    obtain ⟨hmem, hndt⟩ := hnd
    rw [List.countP_cons]
    by_cases hp : (r.child == c && r.parent == p0) = true
    · have ht : t.countP (fun r => r.child == c && r.parent == p0) = 0 := by
        rw [List.countP_eq_zero]
        intro x hx hpx
        simp only [Bool.and_eq_true, beq_iff_eq] at hp hpx
        refine hmem ?_
        rw [show (r.child, r.parent) = (x.child, x.parent) by
          rw [hp.1, hp.2, hpx.1, hpx.2]]
        exact List.mem_map_of_mem _ hx
      simp [hp, ht]
    · have hpf : (fun r : PairRow => r.child == c && r.parent == p0) r = false := by
        simpa using hp
      have := ih hndt
      simp [hpf]
      omega

theorem lastWrite_cons (p : PairRow → Bool) (r : PairRow) (t : List PairRow) :
    lastWrite p (r :: t)
      = match lastWrite p t with
        | some x => some x
        | none => if p r then some r else none := rfl

theorem buildFold_entry (cix pix : String → Option Nat) (a b : Nat) :
    ∀ (rows : List PairRow) (f : Nat → Nat → Nat),
      (rows.foldl
        (fun f r =>
          match cix r.child, pix r.parent with
          | some i, some j => fun x y => if x = i && y = j then r.freq else f x y
          | _, _ => f)
        f) a b
      = match lastWrite (fun r => cix r.child == some a && pix r.parent == some b) rows with
        | some r => r.freq
        | none => f a b := by
  intro rows
  induction rows with
  | nil => intro f; rfl
  | cons r t ih =>
    intro f
    rw [List.foldl_cons, ih, lastWrite_cons]
    rcases hl : lastWrite (fun r => cix r.child == some a && pix r.parent == some b) t with - | x
    · rcases hc : cix r.child with - | i <;> rcases hp : pix r.parent with - | j
      · simp [hc, hp]
      · simp [hc, hp]
      · simp [hc, hp]
      · simp only [hc, hp]
        by_cases hij : a = i ∧ b = j
        · obtain ⟨h1, h2⟩ := hij
          subst h1; subst h2
          simp
        · have hcond : ¬(a = i ∧ b = j) := hij
          have hcond2 : ¬(some i = some a ∧ some j = some b) := by
            intro hcon
            exact hij ⟨(Option.some.injEq .. ▸ hcon.1 : i = a).symm,
              (Option.some.injEq .. ▸ hcon.2 : j = b).symm⟩
          simp only [beq_iff_eq, Bool.and_eq_true, decide_eq_true_eq]
          rw [if_neg hcond, if_neg hcond2]
    · simp [hl]

/-- C4 counterexample: with direct pair frequency 5 and skip pair frequency 7
for the same `(a, b)`, a first request builds and caches the direct matrix;
the later `skip = true` request returns that cached matrix, so its cell
`[0, 0]` is 5 instead of the skip table's statistic 7 — refuting "every later
request with the same arguments returns a matrix computed from that
combination's pair table". -/
theorem c4_counterexample :
    (generateAdjacencyMatrix
        (generateAdjacencyMatrix (crunch cdC4 "ADJ" "NOUN") false).1 true).2.entry 0 0
      ≠ (pairFreq (crunch cdC4 "ADJ" "NOUN").skipPairDf.rows "a" "b").getD 0 := by
  decide

/-- C4 (amended): `generate_adjacency_matrix` keeps a *single* cached matrix
per instance, not one per `(relation kind, statistic kind)` combination.  On
the first request (empty cache) the matrix built from the pair table selected
by `skip` has cell `[i, j]` equal to the recorded frequency of
`(child_vocab[i], parent_vocab[j])` and `0` for unobserved pairs, and is
stored in the cache; every later request returns the cached matrix unchanged,
regardless of its arguments. -/
theorem c4_single_cached_matrix :
    (∀ (st : CAState) (skip : Bool) (i j : Nat)
        (hm : st.matrix = none)
        (hci : (st.childDf.rows.map Prod.fst).Nodup)
        (hpi : (st.parentDf.rows.map Prod.fst).Nodup)
        (hkeys : (((if skip then st.skipPairDf.rows else st.pairDf.rows)).map
            fun r => (r.child, r.parent)).Nodup)
        (hmemb : ∀ r ∈ (if skip then st.skipPairDf.rows else st.pairDf.rows),
            r.child ∈ st.childDf.rows.map Prod.fst
              ∧ r.parent ∈ st.parentDf.rows.map Prod.fst)
        (hi : i < (st.childDf.rows.map Prod.fst).length)
        (hj : j < (st.parentDf.rows.map Prod.fst).length),
        (generateAdjacencyMatrix st skip).2.entry i j
            = (pairFreq (if skip then st.skipPairDf.rows else st.pairDf.rows)
                ((st.childDf.rows.map Prod.fst).get ⟨i, hi⟩)
                ((st.parentDf.rows.map Prod.fst).get ⟨j, hj⟩)).getD 0
          ∧ (generateAdjacencyMatrix st skip).1.matrix
              = some (generateAdjacencyMatrix st skip).2)
    ∧ ∀ (st : CAState) (m : Mat) (skip2 : Bool),
        st.matrix = some m → generateAdjacencyMatrix st skip2 = (st, m) := by
  constructor
  · intro st skip i j hm hci hpi hkeys hmemb hi hj
    set ct := st.childDf.rows.map Prod.fst with hct
    set pt := st.parentDf.rows.map Prod.fst with hpt
    set rows := if skip then st.skipPairDf.rows else st.pairDf.rows with hrows
    have hgen : generateAdjacencyMatrix st skip
        = ({ st with matrix := some (buildMat rows (dictIdx ct) (dictIdx pt)
              ct.length pt.length) },
           buildMat rows (dictIdx ct) (dictIdx pt) ct.length pt.length) := by
      rw [generateAdjacencyMatrix, hm]
    refine ⟨?_, by rw [hgen]⟩
    rw [hgen]
    show (buildMat rows (dictIdx ct) (dictIdx pt) ct.length pt.length).entry i j
      = (pairFreq rows (ct.get ⟨i, hi⟩) (pt.get ⟨j, hj⟩)).getD 0
    refine (buildFold_entry (dictIdx ct) (dictIdx pt) i j rows fun _ _ => 0).trans ?_
    have hcongr : ∀ r ∈ rows,
        (dictIdx ct r.child == some i && dictIdx pt r.parent == some j)
          = (r.child == ct.get ⟨i, hi⟩ && r.parent == pt.get ⟨j, hj⟩) := by
      intro r hr
      have hchild : dictIdx ct r.child = some i ↔ r.child = ct.get ⟨i, hi⟩ := by
        constructor
        · intro h
          obtain ⟨k, hk, hik, hget⟩ := dictIdxGo_eq_some ct 0 i h
          have : k = i := by omega
          subst this
          exact hget.symm
        · intro h
          have := dictIdxGo_of_get ct 0 i hi hci h.symm
          simpa [dictIdx] using this
      have hparent : dictIdx pt r.parent = some j ↔ r.parent = pt.get ⟨j, hj⟩ := by
        constructor
        · intro h
          obtain ⟨k, hk, hik, hget⟩ := dictIdxGo_eq_some pt 0 j h
          have : k = j := by omega
          subst this
          exact hget.symm
        · intro h
          have := dictIdxGo_of_get pt 0 j hj hpi h.symm
          simpa [dictIdx] using this
      by_cases h1 : dictIdx ct r.child = some i
      · by_cases h2 : dictIdx pt r.parent = some j
        · rw [h1, h2, hchild.mp h1, hparent.mp h2]
          simp
        · have h2b : ¬r.parent = pt.get ⟨j, hj⟩ := fun hcon => h2 (hparent.mpr hcon)
          rw [beq_eq_false_iff_ne.mpr h2, beq_eq_false_iff_ne.mpr h2b]
          simp
      · have h1b : ¬r.child = ct.get ⟨i, hi⟩ := fun hcon => h1 (hchild.mpr hcon)
        rw [beq_eq_false_iff_ne.mpr h1, beq_eq_false_iff_ne.mpr h1b]
        simp
    rw [lastWrite_congr rows hcongr,
      lastWrite_eq_findq _ (countP_pair_le_one (ct.get ⟨i, hi⟩) (pt.get ⟨j, hj⟩) rows hkeys)]
    rw [pairFreq]
    cases rows.find? fun r => r.child == ct.get ⟨i, hi⟩ && r.parent == pt.get ⟨j, hj⟩ <;> simp
  · intro st m skip2 h
    rw [generateAdjacencyMatrix, h]

theorem c4_single_cached_matrix_witness :
    ((generateAdjacencyMatrix (crunch cdC4 "ADJ" "NOUN") false).2.entry 0 0
        = (pairFreq (crunch cdC4 "ADJ" "NOUN").pairDf.rows
            (((crunch cdC4 "ADJ" "NOUN").childDf.rows.map Prod.fst).get ⟨0, by decide⟩)
            (((crunch cdC4 "ADJ" "NOUN").parentDf.rows.map Prod.fst).get ⟨0, by decide⟩)).getD 0)
    ∧ generateAdjacencyMatrix (generateAdjacencyMatrix (crunch cdC4 "ADJ" "NOUN") false).1 true
        = ((generateAdjacencyMatrix (crunch cdC4 "ADJ" "NOUN") false).1,
            (generateAdjacencyMatrix (crunch cdC4 "ADJ" "NOUN") false).2) :=
  ⟨(c4_single_cached_matrix.1 (crunch cdC4 "ADJ" "NOUN") false 0 0 rfl (by decide) (by decide)
      (by decide) (by decide) (by decide) (by decide)).1,
    c4_single_cached_matrix.2 (generateAdjacencyMatrix (crunch cdC4 "ADJ" "NOUN") false).1
      (generateAdjacencyMatrix (crunch cdC4 "ADJ" "NOUN") false).2 true rfl⟩

/-! ## C5 — memoization of the derived-statistic computations -/

/-- C5 (code bug, evaluated at the failing input): on the corpus `cdC5` with
one observed pair, a second `compute_combinations` and a second
`compute_entropy` are no-ops as the claim says, but the first `compute_pmi`
succeeds (appending the `pmi` column to `pair_df`) and the second
`compute_pmi` raises `ValueError`: its memo guard looks for `'pmi'` among the
columns of `child_df`/`parent_df` — which never receive such a column — so
the body runs again and the five-value rows of `pair_df` no longer match the
four-name unpacking `(w, p, (w, p), ct)`. -/
theorem c5_second_pmi_call_raises :
    computeCombinations (computeCombinations (crunch cdC5 "ADJ" "NOUN"))
        = computeCombinations (crunch cdC5 "ADJ" "NOUN")
      ∧ computeEntropy (computeEntropy (computeCombinations (crunch cdC5 "ADJ" "NOUN")))
          = computeEntropy (computeCombinations (crunch cdC5 "ADJ" "NOUN"))
      ∧ (computePmi (crunch cdC5 "ADJ" "NOUN")).map (fun st1 => st1.pairDf.pmiCol.isSome)
          = .ok true
      ∧ (computePmi (crunch cdC5 "ADJ" "NOUN")).bind computePmi = .error pmiUnpackMsg :=
  ⟨rfl, rfl, rfl, rfl⟩

/-! ## C2 — the PMI formula and the total `N` -/

theorem computePmi_crunch (cd : CorpusData) (cu pu : String) :
    computePmi (crunch cd cu pu)
      = .ok (let st := crunch cd cu pu
             let st1 := { st with
               pairDf := ⟨st.pairDf.rows, some (st.pairDf.rows.map (pmiRow st))⟩ }
             { st1 with
               skipPairDf := ⟨st1.skipPairDf.rows,
                 some (st1.skipPairDf.rows.map (pmiRow st1))⟩ }) := rfl

theorem logb_two_two : Real.logb 2 2 = 1 :=
  Real.logb_self_eq_one (by norm_num)

theorem logb_two_eight : Real.logb 2 8 = 3 := by
  rw [show (8 : ℝ) = 2 ^ (3 : Nat) by norm_num, Real.logb_pow, logb_two_two]
  norm_num

theorem logb_two_four : Real.logb 2 4 = 2 := by
  rw [show (4 : ℝ) = 2 ^ (2 : Nat) by norm_num, Real.logb_pow, logb_two_two]
  norm_num


/-- C2 counterexample: on a corpus with a third category (`VERB`, 4
occurrences), the PMI computed by the code differs from the claimed formula
with `N` = total occurrences of tokens of the two *selected* categories: the
code computes `log2(2) - log2(2) - log2(2) + log2(8) = 2` (its `n_tokens`
sums all categories), while the claimed `N = 4` gives `1`. -/
theorem c2_counterexample :
    (computePmi (crunch cdC2 "ADJ" "NOUN")).map (fun st1 => st1.pairDf.pmiCol)
      ≠ .ok (some [Real.logb 2 2 - Real.logb 2 2 - Real.logb 2 2
          + Real.logb 2 (specSelectedCategoryTotal cdC2 "ADJ" "NOUN")]) := by
  rw [computePmi_crunch]
  intro h
  simp only [Except.map, Except.ok.injEq, Option.some.injEq] at h
  have h2 : pmiRow (crunch cdC2 "ADJ" "NOUN") ⟨"a", "b", 2⟩
      = Real.logb 2 2 - Real.logb 2 2 - Real.logb 2 2
        + Real.logb 2 (specSelectedCategoryTotal cdC2 "ADJ" "NOUN") := by
    rw [show (crunch cdC2 "ADJ" "NOUN").pairDf.rows = [⟨"a", "b", 2⟩] from rfl] at h
    simpa using h
  have hL : pmiRow (crunch cdC2 "ADJ" "NOUN") ⟨"a", "b", 2⟩ = 2 := by
    unfold pmiRow
    rw [show (dictGet (crunch cdC2 "ADJ" "NOUN").tokenStats "a").getD 0 = 2 from rfl,
      show (dictGet (crunch cdC2 "ADJ" "NOUN").tokenStats "b").getD 0 = 2 from rfl,
      show (crunch cdC2 "ADJ" "NOUN").nTokens = 8 from rfl]
    push_cast
    rw [logb_two_two, logb_two_eight]
    norm_num
  have hR : Real.logb 2 2 - Real.logb 2 2 - Real.logb 2 2
      + Real.logb 2 (specSelectedCategoryTotal cdC2 "ADJ" "NOUN") = 1 := by
    rw [show specSelectedCategoryTotal cdC2 "ADJ" "NOUN" = 4 from rfl]
    push_cast
    rw [logb_two_two, logb_two_four]
    norm_num
  rw [hL, hR] at h2
  norm_num at h2


/-- C2 (amended): for every observed pair row `(w, p, c)` of a crunched
corpus, `compute_pmi` assigns `log2(c) - log2(freq(w)) - log2(freq(p)) +
log2(N)` where `N` is the total number of occurrences of *all* corpus tokens,
of every category (`n_tokens = sum(corpus.token_stats.values())`); in
particular, with `freq(w) = 100`, `freq(p) = 50`, `c = 10` and all-category
total `N = 10000`, the computed value equals `log2(20)`. -/
theorem c2_pmi_uses_allcategory_total (cd : CorpusData) (cu pu : String) (i : Nat)
    (r : PairRow) (fw fp : Nat)
    (hr : (crunch cd cu pu).pairDf.rows[i]? = some r)
    (hw : dictGet (crunch cd cu pu).tokenStats r.child = some fw)
    (hp : dictGet (crunch cd cu pu).tokenStats r.parent = some fp) :
    (computePmi (crunch cd cu pu)).map (fun st1 => st1.pairDf.pmiCol.map fun l => l[i]?)
        = .ok (some (some (Real.logb 2 r.freq - Real.logb 2 fw - Real.logb 2 fp
            + Real.logb 2 (((cd.tokenItems.map (·.2)).sum : ℕ) : ℝ))))
      ∧ (crunch cd cu pu).nTokens = (cd.tokenItems.map (·.2)).sum
      ∧ (computePmi (crunch cdC2W "ADJ" "NOUN")).map (fun st1 => st1.pairDf.pmiCol)
          = .ok (some [Real.logb 2 20]) := by
  refine ⟨?_, rfl, ?_⟩
  · rw [computePmi_crunch]
    simp only [Except.map, Option.map_some, Option.map_some']
    rw [List.getElem?_map, hr]
    simp only [Option.map_some, Option.map_some', Except.ok.injEq, Option.some.injEq]
    unfold pmiRow
    rw [hw, hp]
    simp only [Option.getD_some]
    rw [show (crunch cd cu pu).nTokens = (cd.tokenItems.map (·.2)).sum from rfl]
    ring
  · rw [computePmi_crunch]
    simp only [Except.map, Except.ok.injEq, Option.some.injEq]
    rw [show (crunch cdC2W "ADJ" "NOUN").pairDf.rows = [⟨"red", "apple", 10⟩] from rfl]
    simp only [List.map_cons, List.map_nil, List.cons.injEq, and_true]
    unfold pmiRow
    rw [show (dictGet (crunch cdC2W "ADJ" "NOUN").tokenStats "red").getD 0 = 100 from rfl,
      show (dictGet (crunch cdC2W "ADJ" "NOUN").tokenStats "apple").getD 0 = 50 from rfl,
      show (crunch cdC2W "ADJ" "NOUN").nTokens = 10000 from rfl,
      show (⟨"red", "apple", 10⟩ : PairRow).freq = 10 from rfl]
    push_cast
    have h1 : Real.log 10 + Real.log 10000 = Real.log 100000 := by
      rw [show (100000 : ℝ) = 10 * 10000 by norm_num,
        Real.log_mul (by norm_num) (by norm_num)]
    have h2 : Real.log 100 + (Real.log 50 + Real.log 20) = Real.log 100000 := by
      rw [show (100000 : ℝ) = 100 * (50 * 20) by norm_num,
        Real.log_mul (by norm_num) (by norm_num), Real.log_mul (by norm_num) (by norm_num)]
    have hl2 : Real.log 2 ≠ 0 := (Real.log_pos (by norm_num)).ne.symm
    simp only [Real.logb]
    field_simp
    linarith

theorem c2_pmi_uses_allcategory_total_witness :
    ((computePmi (crunch cdC2W "ADJ" "NOUN")).map
          (fun st1 => st1.pairDf.pmiCol.map fun l => l[0]?)
        = .ok (some (some (Real.logb 2 ((⟨"red", "apple", 10⟩ : PairRow).freq)
            - Real.logb 2 (100 : ℕ) - Real.logb 2 (50 : ℕ)
            + Real.logb 2 (((cdC2W.tokenItems.map (·.2)).sum : ℕ) : ℝ)))))
      ∧ (crunch cdC2W "ADJ" "NOUN").nTokens = (cdC2W.tokenItems.map (·.2)).sum
      ∧ (computePmi (crunch cdC2W "ADJ" "NOUN")).map (fun st1 => st1.pairDf.pmiCol)
          = .ok (some [Real.logb 2 20]) :=
  c2_pmi_uses_allcategory_total cdC2W "ADJ" "NOUN" 0 ⟨"red", "apple", 10⟩ 100 50
    (by decide) (by decide) (by decide)

/-! ## C3 — entropy of matrix rows and columns -/

theorem sum_of_uniform (c : Nat) :
    ∀ row : List Nat, (∀ x ∈ row, x = 0 ∨ x = c) →
      row.sum = (row.countP fun x => x != 0) * c := by
  intro row
  induction row with
  | nil => intro _; simp
  | cons x t ih =>
    intro hmem
    have hx := hmem x (List.mem_cons_self x t)
    have ht := ih fun y hy => hmem y (List.mem_cons_of_mem x hy)
    rcases hx with rfl | rfl
    · simp [List.countP_cons, ht]
    · by_cases hc : x = 0
      · subst hc; simp [List.countP_cons, ht]
      · rw [List.sum_cons, List.countP_cons, ht,
          if_pos (by simpa using hc : (x != 0) = true)]
        ring

theorem mapsum_of_uniform (c : Nat) (s : ℝ) :
    ∀ row : List Nat, (∀ x ∈ row, x = 0 ∨ x = c) →
      (row.map fun r : Nat => ((r : ℝ) / s) * Real.log ((r : ℝ) / s)).sum
        = (row.countP fun x => x != 0) * (((c : ℝ) / s) * Real.log ((c : ℝ) / s)) := by
  intro row
  induction row with
  | nil => intro _; simp
  | cons x t ih =>
    intro hmem
    have hx := hmem x (List.mem_cons_self x t)
    have ht := ih fun y hy => hmem y (List.mem_cons_of_mem x hy)
    rw [List.map_cons, List.sum_cons, List.countP_cons, ht]
    rcases hx with rfl | rfl
    · simp
    · by_cases hc : x = 0
      · subst hc; simp
      · rw [if_pos (by simpa using hc : (x != 0) = true)]
        push_cast
        ring

/-- The natural-base entropy of a row whose nonzero cells all carry the same
value `c`: `ln` of the number of nonzero cells (0 for an all-zero row, since
`Real.log 0 = 0`). -/
theorem rowEntropy_uniform (row : List Nat) (c : Nat) (hc : c ≠ 0)
    (hmem : ∀ x ∈ row, x = 0 ∨ x = c) :
    rowEntropy row = Real.log ((row.countP fun x => x != 0 : Nat) : ℝ) := by
  set k := row.countP fun x => x != 0 with hk
  have hsum : row.sum = k * c := sum_of_uniform c row hmem
  by_cases hk0 : k = 0
  · have hz : row.sum = 0 := by rw [hsum, hk0, Nat.zero_mul]
    rw [rowEntropy, if_pos hz, hk0]
    simp
  · have hs0 : row.sum ≠ 0 := by
      rw [hsum]
      exact Nat.mul_ne_zero hk0 hc
    rw [rowEntropy, if_neg hs0,
      mapsum_of_uniform c ((row.sum : ℕ) : ℝ) row hmem, ← hk]
    have hkR : ((k : ℕ) : ℝ) ≠ 0 := Nat.cast_ne_zero.mpr hk0
    have hcR : ((c : ℕ) : ℝ) ≠ 0 := Nat.cast_ne_zero.mpr hc
    have hdiv : ((c : ℕ) : ℝ) / ((row.sum : ℕ) : ℝ) = (((k : ℕ) : ℝ))⁻¹ := by
      rw [hsum]
      push_cast
      field_simp
      ring
    rw [hdiv, Real.log_inv]
    field_simp

theorem exists_uniform_of_countP_one :
    ∀ row : List Nat, (row.countP fun x => x != 0) = 1 →
      ∃ c, c ≠ 0 ∧ ∀ x ∈ row, x = 0 ∨ x = c := by
  intro row
  induction row with
  | nil => intro h; simp [List.countP_nil] at h
  | cons x t ih =>
    intro h
    rw [List.countP_cons] at h
    by_cases hx : x = 0
    · subst hx
      simp only [bne_self_eq_false, if_false] at h
      obtain ⟨c, hc, hmem⟩ := ih (by simpa using h)
      exact ⟨c, hc, fun y hy => by
        rcases List.mem_cons.mp hy with rfl | hy2
        · exact Or.inl rfl
        · exact hmem y hy2⟩
    · rw [if_pos (by simpa using hx : (x != 0) = true)] at h
      have ht : t.countP (fun x => x != 0) = 0 := by omega
      refine ⟨x, hx, fun y hy => ?_⟩
      rcases List.mem_cons.mp hy with rfl | hy2
      · exact Or.inr rfl
      · exact Or.inl (by
          have := List.countP_eq_zero.mp ht y hy2
          simpa using this)

theorem rowEntropy_single (row : List Nat) (h : (row.countP fun x => x != 0) = 1) :
    rowEntropy row = 0 := by
  obtain ⟨c, hc, hmem⟩ := exists_uniform_of_countP_one row h
  rw [rowEntropy_uniform row c hc hmem, h]
  simp

theorem rowEntropy_zero (row : List Nat) (h : ∀ x ∈ row, x = 0) :
    rowEntropy row = 0 := by
  rw [rowEntropy, if_pos (List.sum_eq_zero h)]

/-- C3 counterexample: on the corpus `cdC3` the single `ADJ` child `a` pairs
uniformly with the two `NOUN` parents, so its adjacency row is `[1, 1]` —
the claim says its entropy is `log2(2) = 1`, but `compute_entropy` calls
`scipy.stats.entropy` at the *default natural base* and stores `ln 2`. -/
theorem c3_counterexample :
    (computeEntropy (crunch cdC3 "ADJ" "NOUN")).childDf.entropy
      ≠ some [Real.logb 2 2] := by
  intro h
  have h0 : (computeEntropy (crunch cdC3 "ADJ" "NOUN")).childDf.entropy
      = some [rowEntropy [1, 1]] := rfl
  rw [h0] at h
  simp only [Option.some.injEq, List.cons.injEq, and_true] at h
  have hv : rowEntropy [1, 1] = Real.log (((2 : ℕ) : ℝ)) := by
    rw [rowEntropy_uniform [1, 1] 1 one_ne_zero (by decide)]
    norm_num
  rw [hv, logb_two_two] at h
  have hlt : Real.log (((2 : ℕ) : ℝ)) < 1 := by
    push_cast
    calc Real.log 2 < 0.6931471808 := Real.log_two_lt_d9
    _ < 1 := by norm_num
  rw [h] at hlt
  exact absurd hlt (lt_irrefl 1)

/-- C3 (amended): `compute_entropy` assigns each child token the
*natural-base* (base `e`, scipy's default) Shannon entropy of its
adjacency-matrix row and each parent token that of its column; a row whose
nonzero cells all carry one common value has entropy `ln` of the number of
nonzero cells — so a row with exactly one nonzero cell gets `0`, a row
uniform over `k` nonzero parents gets `ln k` (not `log2 k`), and an all-zero
row gets `0` (scipy's `nan`, filled with 0 by `fillna`). -/
theorem c3_entropy_natural_base :
    (∀ (cd : CorpusData) (cu pu : String),
        (computeEntropy (crunch cd cu pu)).childDf.entropy
            = some ((List.range (generateAdjacencyMatrix (crunch cd cu pu) false).2.nr).map
                fun i => rowEntropy (matRow (generateAdjacencyMatrix (crunch cd cu pu) false).2 i))
          ∧ (computeEntropy (crunch cd cu pu)).parentDf.entropy
            = some ((List.range (generateAdjacencyMatrix (crunch cd cu pu) false).2.nc).map
                fun j => rowEntropy (matCol (generateAdjacencyMatrix (crunch cd cu pu) false).2 j)))
    ∧ (∀ (row : List Nat) (c : Nat), c ≠ 0 → (∀ x ∈ row, x = 0 ∨ x = c) →
        rowEntropy row = Real.log ((row.countP fun x => x != 0 : Nat) : ℝ))
    ∧ (∀ row : List Nat, (row.countP fun x => x != 0) = 1 → rowEntropy row = 0)
    ∧ (∀ row : List Nat, (∀ x ∈ row, x = 0) → rowEntropy row = 0) :=
  ⟨fun _ _ _ => ⟨rfl, rfl⟩, rowEntropy_uniform, rowEntropy_single, rowEntropy_zero⟩

theorem c3_entropy_natural_base_witness :
    ((computeEntropy (crunch cdC3 "ADJ" "NOUN")).childDf.entropy
        = some ((List.range (generateAdjacencyMatrix (crunch cdC3 "ADJ" "NOUN") false).2.nr).map
            fun i => rowEntropy (matRow (generateAdjacencyMatrix (crunch cdC3 "ADJ" "NOUN") false).2 i)))
      ∧ rowEntropy [3, 0, 3] = Real.log ((([3, 0, 3].countP fun x => x != 0 : Nat) : ℝ))
      ∧ rowEntropy [0, 5] = 0
      ∧ rowEntropy [0, 0, 0] = 0 :=
  ⟨(c3_entropy_natural_base.1 cdC3 "ADJ" "NOUN").1,
    c3_entropy_natural_base.2.1 [3, 0, 3] 3 (by decide) (by decide),
    c3_entropy_natural_base.2.2.1 [0, 5] (by decide),
    c3_entropy_natural_base.2.2.2 [0, 0, 0] (by decide)⟩

/-! ## C10 — one text under both categories -/

theorem dictGet_foldl (k : String) :
    ∀ (l : List (String × Nat)) (init : Option Nat),
      l.foldl (fun acc kv => if kv.1 = k then some kv.2 else acc) init
        = (dictGet l k).elim init some := by
  intro l
  induction l with
  | nil => intro init; rfl
  | cons kv t ih =>
    intro init
    rw [List.foldl_cons, ih]
    have hd : dictGet (kv :: t) k
        = (dictGet t k).elim (if kv.1 = k then some kv.2 else none) some := by
      rw [show dictGet (kv :: t) k
          = t.foldl (fun acc kv => if kv.1 = k then some kv.2 else acc)
              (if kv.1 = k then some kv.2 else none) from rfl, ih]
    rw [hd]
    rcases dictGet t k with - | v
    · by_cases hk : kv.1 = k
      · simp [hk]
      · simp [hk]
    · simp

theorem dictGet_append (l1 l2 : List (String × Nat)) (k : String) :
    dictGet (l1 ++ l2) k = (dictGet l2 k).elim (dictGet l1 k) some := by
  show (l1 ++ l2).foldl _ none = _
  rw [List.foldl_append]
  rw [dictGet_foldl k l2 (l1.foldl (fun acc kv => if kv.1 = k then some kv.2 else acc) none)]
  rfl

theorem dictGet_eq_none (k : String) :
    ∀ l : List (String × Nat), (∀ kv ∈ l, kv.1 ≠ k) → dictGet l k = none := by
  intro l
  induction l with
  | nil => intro _; rfl
  | cons kv t ih =>
    intro h
    rw [show dictGet (kv :: t) k
        = t.foldl (fun acc kv => if kv.1 = k then some kv.2 else acc)
            (if kv.1 = k then some kv.2 else none) from rfl,
      dictGet_foldl, ih fun x hx => h x (List.mem_cons_of_mem kv hx),
      if_neg (h kv (List.mem_cons_self kv t))]
    rfl


/-- C10 (confirmed): when the same text `t` occurs in the corpus under both
selected categories, the bare-text `token_stats` dict of
`_crunch_corpus_stats` binds `t` to the count of the binding constructed
last — not to the sum of the two counts — and that single count is the
frequency `compute_pmi` uses for `t` in every pair row where `t` is the
child or the parent. -/
theorem c10_last_binding_wins (cd : CorpusData) (cu pu : String)
    (L1 L2 L3 : List (String × Nat)) (t : String) (c1 c2 : Nat)
    (hshape : (crunch cd cu pu).tokenStats = L1 ++ [(t, c1)] ++ L2 ++ [(t, c2)] ++ L3)
    (hafter : ∀ kv ∈ L3, kv.1 ≠ t) :
    dictGet (crunch cd cu pu).tokenStats t = some c2
      ∧ (c1 ≠ 0 → dictGet (crunch cd cu pu).tokenStats t ≠ some (c1 + c2))
      ∧ (∀ (i : Nat) (r : PairRow), (crunch cd cu pu).pairDf.rows[i]? = some r →
          r.child = t →
          (computePmi (crunch cd cu pu)).map (fun st1 => st1.pairDf.pmiCol.map fun l => l[i]?)
            = .ok (some (some ((Real.logb 2 r.freq - Real.logb 2 c2)
                - (Real.logb 2 (((dictGet (crunch cd cu pu).tokenStats r.parent).getD 0 : ℕ) : ℝ)
                    - Real.logb 2 ((crunch cd cu pu).nTokens : ℕ))))))
      ∧ (∀ (i : Nat) (r : PairRow), (crunch cd cu pu).pairDf.rows[i]? = some r →
          r.parent = t →
          (computePmi (crunch cd cu pu)).map (fun st1 => st1.pairDf.pmiCol.map fun l => l[i]?)
            = .ok (some (some ((Real.logb 2 r.freq
                - Real.logb 2 (((dictGet (crunch cd cu pu).tokenStats r.child).getD 0 : ℕ) : ℝ))
                - (Real.logb 2 c2 - Real.logb 2 ((crunch cd cu pu).nTokens : ℕ)))))) := by
  have h1 : dictGet (crunch cd cu pu).tokenStats t = some c2 := by
    rw [hshape, dictGet_append, dictGet_append, dictGet_append, dictGet_append,
      dictGet_eq_none t L3 hafter]
    simp [dictGet]
  refine ⟨h1, fun hc1 hcon => ?_, ?_, ?_⟩
  · rw [h1] at hcon
    simp only [Option.some.injEq] at hcon
    omega
  · intro i r hr hchild
    rw [computePmi_crunch]
    simp only [Except.map, Option.map_some, Option.map_some']
    rw [List.getElem?_map, hr]
    simp only [Option.map_some, Option.map_some', Except.ok.injEq, Option.some.injEq]
    unfold pmiRow
    rw [hchild, h1]
    simp only [Option.getD_some]
  · intro i r hr hparent
    rw [computePmi_crunch]
    simp only [Except.map, Option.map_some, Option.map_some']
    rw [List.getElem?_map, hr]
    simp only [Option.map_some, Option.map_some', Except.ok.injEq, Option.some.injEq]
    unfold pmiRow
    rw [hparent, h1]
    simp only [Option.getD_some]

theorem c10_last_binding_wins_witness :
    dictGet (crunch cdC10 "ADJ" "NOUN").tokenStats "t" = some 1
      ∧ ((4 : Nat) ≠ 0 → dictGet (crunch cdC10 "ADJ" "NOUN").tokenStats "t" ≠ some (4 + 1))
      ∧ (computePmi (crunch cdC10 "ADJ" "NOUN")).map
            (fun st1 => st1.pairDf.pmiCol.map fun l => l[0]?)
          = .ok (some (some ((Real.logb 2 ((⟨"t", "b", 3⟩ : PairRow).freq)
                - Real.logb 2 ((1 : ℕ) : ℝ))
              - (Real.logb 2 (((dictGet (crunch cdC10 "ADJ" "NOUN").tokenStats
                    ((⟨"t", "b", 3⟩ : PairRow).parent)).getD 0 : ℕ) : ℝ)
                  - Real.logb 2 ((crunch cdC10 "ADJ" "NOUN").nTokens : ℕ))))) := by
  obtain ⟨h1, h2, h3, -⟩ := c10_last_binding_wins cdC10 "ADJ" "NOUN"
    [] [("b", 2)] [] "t" 4 1 (by decide) (by decide)
  exact ⟨h1, h2, h3 0 ⟨"t", "b", 3⟩ (by decide) rfl⟩

/-! ## C7 — the merge reduction is summation, commutative and associative -/

theorem cntGet_cntAdd {α : Type} [DecidableEq α] (k j : α) (n : Nat) :
    ∀ c : Cnt α, cntGet (cntAdd c k n) j = cntGet c j + (if j = k then n else 0) := by
  intro c
  induction c with
  | nil =>
    show cntGet [(k, n)] j = cntGet ([] : Cnt α) j + _
    by_cases h : j = k
    · rw [if_pos h]
      show (if k = j then n else cntGet ([] : Cnt α) j) = _
      rw [if_pos h.symm]
      simp [cntGet]
    · rw [if_neg h]
      show (if k = j then n else cntGet ([] : Cnt α) j) = _
      rw [if_neg fun hc => h hc.symm]
      simp [cntGet]
  | cons kv t ih =>
    obtain ⟨k1, v⟩ := kv
    show cntGet (if k1 = k then (k1, v + n) :: t else (k1, v) :: cntAdd t k n) j = _
    by_cases h1 : k1 = k
    · rw [if_pos h1]
      show (if k1 = j then v + n else cntGet t j)
          = (if k1 = j then v else cntGet t j) + _
      by_cases h2 : k1 = j
      · rw [if_pos h2, if_pos h2, if_pos (h2.symm.trans h1)]
      · rw [if_neg h2, if_neg h2, if_neg fun hc : j = k => h2 (h1.trans hc.symm)]
        simp
    · rw [if_neg h1]
      show (if k1 = j then v else cntGet (cntAdd t k n) j)
          = (if k1 = j then v else cntGet t j) + _
      by_cases h2 : k1 = j
      · rw [if_pos h2, if_pos h2, if_neg fun hc : j = k => h1 (h2.trans hc)]
        simp
      · rw [if_neg h2, if_neg h2, ih]

theorem cntGet_foldAdd {α : Type} [DecidableEq α] (j : α) :
    ∀ (ks : List α) (c0 : Cnt α),
      cntGet (ks.foldl (fun c k => cntAdd c k 1) c0) j = cntGet c0 j + ks.count j := by
  intro ks
  induction ks with
  | nil => intro c0; simp
  | cons k t ih =>
    intro c0
    rw [List.foldl_cons, ih, cntGet_cntAdd, List.count_cons]
    by_cases h : j = k
    · rw [if_pos h, if_pos (by simpa using h.symm : (k == j) = true)]
      ring
    · rw [if_neg h, if_neg (by simpa using fun hc : k = j => h hc.symm : ¬(k == j) = true)]
      ring

theorem cntGet_mkCnt {α : Type} [DecidableEq α] (ks : List α) (j : α) :
    cntGet (mkCnt ks) j = ks.count j := by
  rw [mkCnt, cntGet_foldAdd]
  simp [cntGet]

theorem cntGet_cntUpdate {α : Type} [DecidableEq α] (j : α) :
    ∀ (o c : Cnt α),
      cntGet (cntUpdate c o) j
        = cntGet c j + (o.map fun kv => if j = kv.1 then kv.2 else 0).sum := by
  intro o
  induction o with
  | nil => intro c; simp [cntUpdate]
  | cons kv t ih =>
    intro c
    rw [cntUpdate, List.foldl_cons]
    rw [show List.foldl (fun c kv => cntAdd c kv.1 kv.2) (cntAdd c kv.1 kv.2) t
        = cntUpdate (cntAdd c kv.1 kv.2) t from rfl, ih, cntGet_cntAdd]
    simp only [List.map_cons, List.sum_cons]
    ring

theorem weightSum_cntAdd {α : Type} [DecidableEq α] (k w : α) (n : Nat) :
    ∀ c : Cnt α,
      ((cntAdd c k n).map fun kv => if w = kv.1 then kv.2 else 0).sum
        = (c.map fun kv => if w = kv.1 then kv.2 else 0).sum + (if w = k then n else 0) := by
  intro c
  induction c with
  | nil => simp [cntAdd]
  | cons kv t ih =>
    obtain ⟨k1, v⟩ := kv
    show ((if k1 = k then (k1, v + n) :: t
        else (k1, v) :: cntAdd t k n).map fun kv => if w = kv.1 then kv.2 else 0).sum = _
    by_cases h1 : k1 = k
    · rw [if_pos h1]
      simp only [List.map_cons, List.sum_cons]
      by_cases h2 : w = k1
      · rw [if_pos h2, if_pos h2, if_pos (h2.trans h1)]
        ring
      · rw [if_neg h2, if_neg h2, if_neg fun hc : w = k => h2 (hc.trans h1.symm)]
        ring
    · rw [if_neg h1]
      simp only [List.map_cons, List.sum_cons]
      rw [ih]
      ring

theorem weightSum_foldAdd {α : Type} [DecidableEq α] (w : α) :
    ∀ (ks : List α) (c0 : Cnt α),
      ((ks.foldl (fun c k => cntAdd c k 1) c0).map fun kv => if w = kv.1 then kv.2 else 0).sum
        = (c0.map fun kv => if w = kv.1 then kv.2 else 0).sum + ks.count w := by
  intro ks
  induction ks with
  | nil => intro c0; simp
  | cons k t ih =>
    intro c0
    rw [List.foldl_cons, ih, weightSum_cntAdd, List.count_cons]
    by_cases h : w = k
    · rw [if_pos h, if_pos (by simpa using h.symm : (k == w) = true)]
      ring
    · rw [if_neg h, if_neg (by simpa using fun hc : k = w => h hc.symm : ¬(k == w) = true)]
      ring

theorem weightSum_mkCnt {α : Type} [DecidableEq α] (ks : List α) (w : α) :
    ((mkCnt ks).map fun kv => if w = kv.1 then kv.2 else 0).sum = ks.count w := by
  rw [mkCnt, weightSum_foldAdd]
  simp

theorem digestBatch_tokenGet (w : Tok) :
    ∀ (sb : List (List Parse)) (st : RState),
      cntGet (digestBatch st sb).tokenStats w
        = cntGet st.tokenStats w + (sb.map fun s => (sentToks s).count w).sum := by
  intro sb
  induction sb with
  | nil => intro st; simp [digestBatch]
  | cons s t ih =>
    intro st
    rw [digestBatch, List.foldl_cons,
      show List.foldl _ _ t = digestBatch ({ st with
        tokenStats := cntUpdate st.tokenStats (digestSentence s).1,
        pairStats := cntUpdate st.pairStats (digestSentence s).2 } : RState) t from rfl,
      ih]
    show cntGet (cntUpdate st.tokenStats (digestSentence s).1) w + _ = _
    rw [cntGet_cntUpdate, show (digestSentence s).1 = mkCnt (sentToks s) from rfl,
      weightSum_mkCnt]
    simp only [List.map_cons, List.sum_cons]
    omega

theorem count_pair_invariant (e : Tok × Tok) (l : List (Tok × Tok)) :
    @List.count _ instBEqOfDecidableEq e l = List.count e l := by
  show List.countP _ l = List.countP _ l
  refine List.countP_congr fun x _ => ?_
  show decide (x = e) = true ↔ (decide (x.1 = e.1) && decide (x.2 = e.2)) = true
  simp [Prod.ext_iff]

theorem digestBatch_pairGet (e : Tok × Tok) :
    ∀ (sb : List (List Parse)) (st : RState),
      cntGet (digestBatch st sb).pairStats e
        = cntGet st.pairStats e + (sb.map fun s => (extractEdges s).count e).sum := by
  intro sb
  induction sb with
  | nil => intro st; simp [digestBatch]
  | cons s t ih =>
    intro st
    rw [digestBatch, List.foldl_cons,
      show List.foldl _ _ t = digestBatch ({ st with
        tokenStats := cntUpdate st.tokenStats (digestSentence s).1,
        pairStats := cntUpdate st.pairStats (digestSentence s).2 } : RState) t from rfl,
      ih]
    show cntGet (cntUpdate st.pairStats (digestSentence s).2) e + _ = _
    rw [cntGet_cntUpdate, show (digestSentence s).2 = mkCnt (extractEdges s) from rfl,
      weightSum_mkCnt, count_pair_invariant e (extractEdges s)]
    simp only [List.map_cons, List.sum_cons]
    omega

theorem foldBatches_tokenGet (w : Tok) :
    ∀ (bs : List (List (List Parse))) (st : RState),
      cntGet (bs.foldl digestBatch st).tokenStats w
        = cntGet st.tokenStats w + (bs.flatten.map fun s => (sentToks s).count w).sum := by
  intro bs
  induction bs with
  | nil => intro st; simp
  | cons sb t ih =>
    intro st
    rw [List.foldl_cons, ih, List.flatten_cons, List.map_append, List.sum_append,
      digestBatch_tokenGet]
    ring

theorem foldBatches_pairGet (e : Tok × Tok) :
    ∀ (bs : List (List (List Parse))) (st : RState),
      cntGet (bs.foldl digestBatch st).pairStats e
        = cntGet st.pairStats e + (bs.flatten.map fun s => (extractEdges s).count e).sum := by
  intro bs
  induction bs with
  | nil => intro st; simp
  | cons sb t ih =>
    intro st
    rw [List.foldl_cons, ih, List.flatten_cons, List.map_append, List.sum_append,
      digestBatch_pairGet]
    ring

/-- C7 (confirmed): the reduction merging per-sentence counters into the
aggregate tables is plain integer summation per key — the aggregate count of
any token (or edge) equals its initial count plus the sum of the
per-sentence counts — and it is commutative and associative: any partition
of the same multiset of sentences into batches of any sizes, digested in any
order, produces tables with identical counts for every key. -/
theorem c7_merge_partition_invariant (P Q : List (List (List Parse))) (st : RState)
    (hperm : P.flatten.Perm Q.flatten) :
    (∀ w : Tok, cntGet (P.foldl digestBatch st).tokenStats w
        = cntGet st.tokenStats w + (P.flatten.map fun s => (sentToks s).count w).sum)
      ∧ (∀ e : Tok × Tok, cntGet (P.foldl digestBatch st).pairStats e
        = cntGet st.pairStats e + (P.flatten.map fun s => (extractEdges s).count e).sum)
      ∧ (∀ w : Tok, cntGet (P.foldl digestBatch st).tokenStats w
        = cntGet (Q.foldl digestBatch st).tokenStats w)
      ∧ (∀ e : Tok × Tok, cntGet (P.foldl digestBatch st).pairStats e
        = cntGet (Q.foldl digestBatch st).pairStats e) := by
  refine ⟨fun w => foldBatches_tokenGet w P st, fun e => foldBatches_pairGet e P st,
    fun w => ?_, fun e => ?_⟩
  · rw [foldBatches_tokenGet w P st, foldBatches_tokenGet w Q st,
      (hperm.map fun s => (sentToks s).count w).sum_eq]
  · rw [foldBatches_pairGet e P st, foldBatches_pairGet e Q st,
      (hperm.map fun s => (extractEdges s).count e).sum_eq]

theorem c7_merge_partition_invariant_witness :
    (∀ w : Tok, cntGet (([[[⟨1, "a", "X", 0⟩]], [[⟨2, "b", "X", 0⟩]]].foldl
          digestBatch freshRState)).tokenStats w
        = cntGet freshRState.tokenStats w
          + (([[[⟨1, "a", "X", 0⟩]], [[⟨2, "b", "X", 0⟩]]] :
              List (List (List Parse))).flatten.map fun s => (sentToks s).count w).sum)
      ∧ (∀ e : Tok × Tok, cntGet (([[[⟨1, "a", "X", 0⟩]], [[⟨2, "b", "X", 0⟩]]].foldl
          digestBatch freshRState)).pairStats e
        = cntGet freshRState.pairStats e
          + (([[[⟨1, "a", "X", 0⟩]], [[⟨2, "b", "X", 0⟩]]] :
              List (List (List Parse))).flatten.map fun s => (extractEdges s).count e).sum)
      ∧ (∀ w : Tok, cntGet (([[[⟨1, "a", "X", 0⟩]], [[⟨2, "b", "X", 0⟩]]].foldl
          digestBatch freshRState)).tokenStats w
        = cntGet (([[[⟨2, "b", "X", 0⟩], [⟨1, "a", "X", 0⟩]]].foldl
          digestBatch freshRState)).tokenStats w)
      ∧ (∀ e : Tok × Tok, cntGet (([[[⟨1, "a", "X", 0⟩]], [[⟨2, "b", "X", 0⟩]]].foldl
          digestBatch freshRState)).pairStats e
        = cntGet (([[[⟨2, "b", "X", 0⟩], [⟨1, "a", "X", 0⟩]]].foldl
          digestBatch freshRState)).pairStats e) :=
  c7_merge_partition_invariant
    [[[⟨1, "a", "X", 0⟩]], [[⟨2, "b", "X", 0⟩]]]
    [[[⟨2, "b", "X", 0⟩], [⟨1, "a", "X", 0⟩]]]
    freshRState (by decide)

/-! ## C1 — checkpoint / resume equivalence -/

theorem readLoop_skip_drop (bs : Nat) (limit : Option Nat) :
    ∀ (lines : List (String × String)) (skip : Nat) (cur : List Parse)
      (batch : List (List Parse)) (st : RState),
      readLoop bs limit lines skip cur batch st
        = readLoop bs limit (lines.drop skip) 0 cur batch st := by
  intro lines
  induction lines with
  | nil => intro skip cur batch st; rw [List.drop_nil]; cases skip <;> rfl
  | cons hd rest ih =>
    intro skip cur batch st
    cases skip with
    | zero => rw [List.drop_zero]
    | succ k =>
      obtain ⟨file, line⟩ := hd
      rw [show readLoop bs limit ((file, line) :: rest) (k + 1) cur batch st
          = readLoop bs limit rest k cur batch st from rfl, ih, List.drop_succ_cons]

theorem digestBatch_position :
    ∀ (sb : List (List Parse)) (st : RState),
      (digestBatch st sb).linesRead = st.linesRead
        ∧ (digestBatch st sb).sentencesSeen = st.sentencesSeen := by
  intro sb
  induction sb with
  | nil => intro st; exact ⟨rfl, rfl⟩
  | cons s t ih =>
    intro st
    rw [digestBatch, List.foldl_cons,
      show List.foldl _ _ t = digestBatch ({ st with
        tokenStats := cntUpdate st.tokenStats (digestSentence s).1,
        pairStats := cntUpdate st.pairStats (digestSentence s).2 } : RState) t from rfl]
    exact ih _

theorem wordsIn_snoc (batch : List (List Parse)) (s : List Parse) :
    wordsIn (batch ++ [s]) = wordsIn batch + s.length := by
  rw [wordsIn, List.map_append, List.sum_append, wordsIn]
  simp

theorem parseLine_dummy : parseLine dummyLine = .error (.castErr "__EOF__") := rfl

theorem readLoop_step_same (bs : Nat) (file line f2 l2 : String)
    (rest2 : List (String × String)) (cur : List Parse) (batch : List (List Parse))
    (st : RState) (p p2 : Parse)
    (hpl : parseLine line = .ok p) (hpl2 : parseLine l2 = .ok p2)
    (hb : file ++ "_" ++ toString p2.sid = file ++ "_" ++ toString p.sid) :
    readLoop bs none ((file, line) :: (f2, l2) :: rest2) 0 cur batch st
      = readLoop bs none ((f2, l2) :: rest2) 0 (cur ++ [p]) batch st := by
  conv_lhs => rw [readLoop]
  rw [hpl]
  simp only [hpl2, Except.map, limitBreak]
  rw [if_neg (by simpa using hb), if_neg (by simp)]

theorem readLoop_step_nodigest (bs : Nat) (file line f2 l2 : String)
    (rest2 : List (String × String)) (cur : List Parse) (batch : List (List Parse))
    (st : RState) (p p2 : Parse)
    (hpl : parseLine line = .ok p) (hpl2 : parseLine l2 = .ok p2)
    (hb : file ++ "_" ++ toString p2.sid ≠ file ++ "_" ++ toString p.sid)
    (htrig : ¬bs ≤ (batch ++ [cur ++ [p]]).length) :
    readLoop bs none ((file, line) :: (f2, l2) :: rest2) 0 cur batch st
      = ⟨(readLoop bs none ((f2, l2) :: rest2) 0 [] (batch ++ [cur ++ [p]]) st).st,
          (readLoop bs none ((f2, l2) :: rest2) 0 [] (batch ++ [cur ++ [p]]) st).err,
          (readLoop bs none ((f2, l2) :: rest2) 0 [] (batch ++ [cur ++ [p]]) st).trace,
          (cur ++ [p]) :: (readLoop bs none ((f2, l2) :: rest2) 0 []
            (batch ++ [cur ++ [p]]) st).assembled⟩ := by
  conv_lhs => rw [readLoop]
  rw [hpl]
  simp only [hpl2, Except.map, limitBreak, limitTrigger, Bool.or_false]
  rw [if_pos hb, if_neg (by simpa using htrig), if_neg (by simp)]

theorem readLoop_step_digest (bs : Nat) (file line f2 l2 : String)
    (rest2 : List (String × String)) (cur : List Parse) (batch : List (List Parse))
    (st : RState) (p p2 : Parse)
    (hpl : parseLine line = .ok p) (hpl2 : parseLine l2 = .ok p2)
    (hb : file ++ "_" ++ toString p2.sid ≠ file ++ "_" ++ toString p.sid)
    (htrig : bs ≤ (batch ++ [cur ++ [p]]).length) :
    readLoop bs none ((file, line) :: (f2, l2) :: rest2) 0 cur batch st
      = ⟨(readLoop bs none ((f2, l2) :: rest2) 0 [] []
            { digestBatch st (batch ++ [cur ++ [p]]) with
              linesRead := (digestBatch st (batch ++ [cur ++ [p]])).linesRead
                + wordsIn (batch ++ [cur ++ [p]]),
              sentencesSeen := (digestBatch st (batch ++ [cur ++ [p]])).sentencesSeen
                + (batch ++ [cur ++ [p]]).length }).st,
          (readLoop bs none ((f2, l2) :: rest2) 0 [] []
            { digestBatch st (batch ++ [cur ++ [p]]) with
              linesRead := (digestBatch st (batch ++ [cur ++ [p]])).linesRead
                + wordsIn (batch ++ [cur ++ [p]]),
              sentencesSeen := (digestBatch st (batch ++ [cur ++ [p]])).sentencesSeen
                + (batch ++ [cur ++ [p]]).length }).err,
          ({ digestBatch st (batch ++ [cur ++ [p]]) with
              linesRead := (digestBatch st (batch ++ [cur ++ [p]])).linesRead
                + wordsIn (batch ++ [cur ++ [p]]),
              sentencesSeen := (digestBatch st (batch ++ [cur ++ [p]])).sentencesSeen
                + (batch ++ [cur ++ [p]]).length } : RState)
            :: (readLoop bs none ((f2, l2) :: rest2) 0 [] []
              { digestBatch st (batch ++ [cur ++ [p]]) with
                linesRead := (digestBatch st (batch ++ [cur ++ [p]])).linesRead
                  + wordsIn (batch ++ [cur ++ [p]]),
                sentencesSeen := (digestBatch st (batch ++ [cur ++ [p]])).sentencesSeen
                  + (batch ++ [cur ++ [p]]).length }).trace,
          (cur ++ [p]) :: (readLoop bs none ((f2, l2) :: rest2) 0 [] []
            { digestBatch st (batch ++ [cur ++ [p]]) with
              linesRead := (digestBatch st (batch ++ [cur ++ [p]])).linesRead
                + wordsIn (batch ++ [cur ++ [p]]),
              sentencesSeen := (digestBatch st (batch ++ [cur ++ [p]])).sentencesSeen
                + (batch ++ [cur ++ [p]]).length }).assembled⟩ := by
  conv_lhs => rw [readLoop]
  rw [hpl]
  simp only [hpl2, Except.map, limitBreak, limitTrigger, Bool.or_false]
  rw [if_pos hb, if_pos (by simpa using htrig), if_neg (by simp)]

theorem readLoop_resume (bs : Nat) :
    ∀ (lines : List (String × String)) (cur : List Parse)
      (batch : List (List Parse)) (st : RState) (cp : RState),
      cp ∈ (readLoop bs none lines 0 cur batch st).trace →
        st.linesRead + cur.length + wordsIn batch + 1 ≤ cp.linesRead
        ∧ (readLoop bs none
              (lines.drop (cp.linesRead - (st.linesRead + cur.length + wordsIn batch)))
              0 [] [] cp).st
            = (readLoop bs none lines 0 cur batch st).st
        ∧ (readLoop bs none
              (lines.drop (cp.linesRead - (st.linesRead + cur.length + wordsIn batch)))
              0 [] [] cp).err
            = (readLoop bs none lines 0 cur batch st).err := by
  intro lines
  induction lines with
  | nil =>
    intro cur batch st cp h
    exact absurd h (by simp [readLoop])
  | cons hd rest ih =>
    intro cur batch st cp hmem
    obtain ⟨file, line⟩ := hd
    rcases hpl : parseLine line with e | p
    · exact absurd hmem (by simp [readLoop, hpl])
    · cases rest with
      | nil =>
        exact absurd hmem (by simp [readLoop, hpl, parseLine_dummy, Except.map])
      | cons hd2 rest2 =>
        obtain ⟨f2, l2⟩ := hd2
        rcases hpl2 : parseLine l2 with e2 | p2
        · exact absurd hmem (by simp [readLoop, hpl, hpl2, Except.map])
        · by_cases hb : file ++ "_" ++ toString p2.sid = file ++ "_" ++ toString p.sid
          · rw [readLoop_step_same bs file line f2 l2 rest2 cur batch st p p2 hpl hpl2 hb]
              at hmem ⊢
            obtain ⟨hlb, hst, herr⟩ := ih (cur ++ [p]) batch st cp hmem
            rw [List.length_append, List.length_singleton] at hlb hst herr
            have hidx : cp.linesRead - (st.linesRead + cur.length + wordsIn batch)
                = (cp.linesRead - (st.linesRead + (cur.length + 1) + wordsIn batch)) + 1 := by
              omega
            rw [hidx, List.drop_succ_cons]
            exact ⟨by omega, hst, herr⟩
          · by_cases htrig : bs ≤ (batch ++ [cur ++ [p]]).length
            · rw [readLoop_step_digest bs file line f2 l2 rest2 cur batch st p p2 hpl hpl2
                hb htrig] at hmem ⊢
              have hpos := digestBatch_position (batch ++ [cur ++ [p]]) st
              have hw : wordsIn (batch ++ [cur ++ [p]]) = wordsIn batch + (cur.length + 1) := by
                rw [wordsIn_snoc, List.length_append, List.length_singleton]
              rcases List.mem_cons.mp hmem with rfl | hmem2
              · constructor
                · show st.linesRead + cur.length + wordsIn batch + 1
                    ≤ (digestBatch st (batch ++ [cur ++ [p]])).linesRead
                      + wordsIn (batch ++ [cur ++ [p]])
                  omega
                · have hidx : ({ digestBatch st (batch ++ [cur ++ [p]]) with
                      linesRead := (digestBatch st (batch ++ [cur ++ [p]])).linesRead
                        + wordsIn (batch ++ [cur ++ [p]]),
                      sentencesSeen := (digestBatch st (batch ++ [cur ++ [p]])).sentencesSeen
                        + (batch ++ [cur ++ [p]]).length } : RState).linesRead
                      - (st.linesRead + cur.length + wordsIn batch) = 1 := by
                    show (digestBatch st (batch ++ [cur ++ [p]])).linesRead
                        + wordsIn (batch ++ [cur ++ [p]])
                        - (st.linesRead + cur.length + wordsIn batch) = 1
                    omega
                  rw [hidx, List.drop_succ_cons, List.drop_zero]
                  exact ⟨rfl, rfl⟩
              · obtain ⟨hlb, hst, herr⟩ := ih [] []
                  { digestBatch st (batch ++ [cur ++ [p]]) with
                    linesRead := (digestBatch st (batch ++ [cur ++ [p]])).linesRead
                      + wordsIn (batch ++ [cur ++ [p]]),
                    sentencesSeen := (digestBatch st (batch ++ [cur ++ [p]])).sentencesSeen
                      + (batch ++ [cur ++ [p]]).length } cp hmem2
                simp only [List.length_nil, wordsIn, List.map_nil, List.sum_nil,
                  Nat.add_zero] at hlb hst herr
                have hlb2 : (digestBatch st (batch ++ [cur ++ [p]])).linesRead
                    + wordsIn (batch ++ [cur ++ [p]]) + 1 ≤ cp.linesRead := hlb
                have hidx : cp.linesRead - (st.linesRead + cur.length + wordsIn batch)
                    = (cp.linesRead
                        - ((digestBatch st (batch ++ [cur ++ [p]])).linesRead
                          + wordsIn (batch ++ [cur ++ [p]]))) + 1 := by
                  omega
                rw [hidx, List.drop_succ_cons]
                exact ⟨by omega, hst, herr⟩
            · rw [readLoop_step_nodigest bs file line f2 l2 rest2 cur batch st p p2 hpl hpl2
                hb htrig] at hmem ⊢
              obtain ⟨hlb, hst, herr⟩ := ih [] (batch ++ [cur ++ [p]]) st cp hmem
              rw [wordsIn_snoc, List.length_append, List.length_singleton] at hlb hst herr
              simp only [List.length_nil] at hlb hst herr
              have hidx : cp.linesRead - (st.linesRead + cur.length + wordsIn batch)
                  = (cp.linesRead - (st.linesRead + 0 + (wordsIn batch + (cur.length + 1)))) + 1 := by
                omega
              rw [hidx, List.drop_succ_cons]
              exact ⟨by omega, hst, herr⟩

/-- C1 (confirmed): interrupting `Corpus.read` after any completed batch —
i.e. taking any state persisted by `to_cache` during an uninterrupted run
from a fresh state — and running `read` again from that reloaded checkpoint
(which skips the first `_lines_read` data lines) terminates with exactly the
token table, pair table and final outcome of the uninterrupted run over the
same input. -/
theorem c1_resume_equals_uninterrupted (bs : Nat) (lines : List (String × String))
    (cp : RState) (h : cp ∈ (corpusRead bs none lines freshRState).trace) :
    (corpusRead bs none lines cp).st.tokenStats
        = (corpusRead bs none lines freshRState).st.tokenStats
      ∧ (corpusRead bs none lines cp).st.pairStats
        = (corpusRead bs none lines freshRState).st.pairStats
      ∧ (corpusRead bs none lines cp).err = (corpusRead bs none lines freshRState).err := by
  obtain ⟨hlb, hst, herr⟩ := readLoop_resume bs lines [] [] freshRState cp h
  have hz : freshRState.linesRead + ([] : List Parse).length + wordsIn [] = 0 := rfl
  rw [hz, Nat.sub_zero] at hst herr
  have hres : corpusRead bs none lines cp
      = readLoop bs none (lines.drop cp.linesRead) 0 [] [] cp := by
    rw [corpusRead, readLoop_skip_drop]
  rw [hres, hst, herr]
  exact ⟨rfl, rfl, rfl⟩

theorem c1_resume_equals_uninterrupted_witness :
    (corpusRead 1 none exLines1 ⟨1, 1, [(⟨"a", "X"⟩, 1)], []⟩).st.tokenStats
        = (corpusRead 1 none exLines1 freshRState).st.tokenStats
      ∧ (corpusRead 1 none exLines1 ⟨1, 1, [(⟨"a", "X"⟩, 1)], []⟩).st.pairStats
        = (corpusRead 1 none exLines1 freshRState).st.pairStats
      ∧ (corpusRead 1 none exLines1 ⟨1, 1, [(⟨"a", "X"⟩, 1)], []⟩).err
        = (corpusRead 1 none exLines1 freshRState).err :=
  c1_resume_equals_uninterrupted 1 exLines1 ⟨1, 1, [(⟨"a", "X"⟩, 1)], []⟩ (by decide)
